import Mathlib

/-!
# benchstat-graph: the aggregation and normalisation engine of `main.go`

A shallow embedding of `main` of `src/main.go`: the timeline loader
(`commitToDate`, `dateToCommit`), the matrix builder (`results`), the derived
key lists (`testKeys`, `dateKeys`), the baseline map (`firstResult`) and the
row loop with its three output transforms.

Modelling decisions.

* `float64` is `F64`: a rational, `+Inf`, `-Inf` or `NaN`.  The arithmetic is
  that of IEEE 754 binary64: the exact result rounded to the nearest float64,
  ties to even, with gradual underflow and overflow to an infinity
  (`F64.rnd`); a division by zero yields `NaN` or an infinity, and every
  comparison with `NaN` is false.  The sign of zero is not modelled.  A mean
  (`Metrics.Mean`, `Result.Nanoseconds`) is any `F64`, `NaN` and the
  infinities included, as `benchstat` hands them to `main`.  The constant
  `1e-8` is the float64 nearest to `1 / 10^8`.
* `time.Time` is `Time`: an instant together with the identity of its
  `*Location`.  A Go map keyed by `time.Time` compares keys with `==`, which
  compares the location as well as the instant, while `Before` compares the
  instants only.
* A Go map is an association list (`GoMap`): a lookup returns the first
  binding of the key, an assignment puts a binding in front, and the keys are
  enumerated without repetition.  Go leaves the iteration order unspecified;
  the program sorts every key list before using it.  `sort.Slice` does not
  fix the order of dates of equal instants: `dateKeys` is one such order and
  `IsDateWalk` describes all of them.
* The collaborators outside `main.go` are inputs: the tables of
  `benchstat.Collection.Tables`, the compiled regular expression (a predicate
  on names), `time.Parse` with the RFC-2822 layout and the command line
  (`Flags`, `files`).  A call of `time.Parse` may allocate the location of
  its result, so the same text may parse to times that differ as map keys:
  the parser takes the number of the line it is called for.  A CSV record is
  kept as a list of fields before formatting (`Field`).
* `benchstat` returns a row with one metric per input file, an empty metric
  (unit `""`, mean 0) where the file has no such benchmark; when there are
  exactly two files it omits the rows that miss a side.
-/

namespace BenchstatGraph

/-! ## float64 -/

/-- A `float64`: a rational, an infinity or NaN. -/
inductive F64 where
  | fin (q : ℚ)
  | posInf
  | negInf
  | nan
deriving DecidableEq

namespace F64

/-- The power `2 ^ e` for an integer exponent. -/
def pow2 (e : Int) : ℚ :=
  if 0 ≤ e then ((2 ^ e.toNat : Nat) : ℚ) else 1 / ((2 ^ (-e).toNat : Nat) : ℚ)

/-- The number of halvings that take `n` below 2, with at most `fuel` of them. -/
def log2Fuel : Nat → Nat → Nat
  | 0, _ => 0
  | fuel + 1, n => if n < 2 then 0 else log2Fuel fuel (n / 2) + 1

/-- The binary logarithm of a natural number, rounded down (0 for 0). -/
def log2 (n : Nat) : Nat := log2Fuel n n

/-- The binary exponent of a positive rational `a`: the `e` with
`2 ^ e ≤ a < 2 ^ (e + 1)`. -/
def ilog2 (a : ℚ) : Int :=
  let e0 : Int := (log2 a.num.natAbs : Int) - (log2 a.den : Int)
  if a < pow2 e0 then e0 - 1 else e0

/-- The natural number nearest to the non-negative rational `x`, the even one on a tie. -/
def roundHalfEven (x : ℚ) : Nat :=
  let f := (Rat.floor x).toNat
  let r := x - (f : ℚ)
  if r < 1 / 2 then f else if 1 / 2 < r then f + 1 else if f % 2 = 0 then f else f + 1

/-- The float64 nearest to the positive rational `a`: 53 significant bits, exponents from
`-1022` (below it the spacing stays `2 ^ -1074`); `none` is an overflow. -/
def rndAbs (a : ℚ) : Option ℚ :=
  let e := max (ilog2 a) (-1022)
  let ulp := pow2 (e - 52)
  let r := (roundHalfEven (a / ulp) : ℚ) * ulp
  if pow2 1024 ≤ r then none else some r

/-- The rounding of an exact result to float64: to nearest, ties to even. -/
def rnd (q : ℚ) : F64 :=
  if q = 0 then fin 0
  else if 0 < q then
    match rndAbs q with
    | some r => fin r
    | none => posInf
  else
    match rndAbs (-q) with
    | some r => fin (-r)
    | none => negInf

/-- Unary minus. -/
def neg : F64 → F64
  | fin q => fin (-q)
  | posInf => negInf
  | negInf => posInf
  | nan => nan

/-- Addition `a + b`. -/
def add : F64 → F64 → F64
  | fin a, fin b => rnd (a + b)
  | nan, _ => nan
  | _, nan => nan
  | posInf, negInf => nan
  | negInf, posInf => nan
  | posInf, _ => posInf
  | negInf, _ => negInf
  | fin _, posInf => posInf
  | fin _, negInf => negInf

/-- Subtraction `a - b`. -/
def sub (a b : F64) : F64 := add a (neg b)

/-- Division `a / b`; a zero divisor is the positive zero. -/
def div : F64 → F64 → F64
  | nan, _ => nan
  | _, nan => nan
  | fin a, fin b =>
    if b = 0 then (if a = 0 then nan else if 0 < a then posInf else negInf)
    else rnd (a / b)
  | fin _, posInf => fin 0
  | fin _, negInf => fin 0
  | posInf, fin b => if 0 ≤ b then posInf else negInf
  | negInf, fin b => if 0 ≤ b then negInf else posInf
  | posInf, posInf => nan
  | posInf, negInf => nan
  | negInf, posInf => nan
  | negInf, negInf => nan

/-- The function `math.Abs`. -/
def abs : F64 → F64
  | fin q => fin |q|
  | posInf => posInf
  | negInf => posInf
  | nan => nan

/-- The comparison `a <= b`, false as soon as one side is NaN. -/
def le : F64 → F64 → Bool
  | fin a, fin b => decide (a ≤ b)
  | nan, _ => false
  | _, nan => false
  | negInf, _ => true
  | _, posInf => true
  | posInf, _ => false
  | fin _, negInf => false

/-- The conversion `float64(n)` of a length. -/
def ofNat (n : Nat) : F64 := rnd (n : ℚ)

end F64

/-- The constant `float64EqualityThreshold`, `1e-8` as a float64. -/
def float64EqualityThreshold : F64 := F64.rnd (1 / 100000000)

/-- The function `avg`: the sum of the slice, left to right from 0, over its length. -/
def avg (a : List F64) : F64 :=
  F64.div (a.foldl (fun sum i => F64.add sum i) (F64.fin 0)) (F64.ofNat a.length)

/-- The function `almostEqual`. -/
def almostEqual (a b : F64) : Bool :=
  F64.le (F64.abs (F64.sub a b)) float64EqualityThreshold

/-! ## time.Time -/

/-- A `time.Time`: the instant in nanoseconds since the Unix epoch and the
identity of the location (`0` is the nil location, UTC). -/
structure Time where
  nanos : Int
  loc : Nat
deriving DecidableEq

/-- The method `Before`: a comparison of instants. -/
def Time.Before (t u : Time) : Bool := decide (t.nanos < u.nanos)

/-- The zero `time.Time{}`: 1 January of year 1, 00:00:00 UTC. -/
def Time.zero : Time := ⟨-62135596800000000000, 0⟩

/-- The cutoff `goodDataStart`: 2020-07-18T00:00:00Z. -/
def goodDataStart : Time := ⟨1595030400000000000, 0⟩

/-! ## Go maps -/

/-- A Go map as an association list; the first binding of a key is its value. -/
abbrev GoMap (K V : Type) := List (K × V)

namespace GoMap

variable {K V : Type}

/-- The two-result lookup `v, ok := m[k]`. -/
def lookup [DecidableEq K] : GoMap K V → K → Option V
  | [], _ => none
  | (k', v) :: m, k => if k' = k then some v else lookup m k

/-- The lookup `m[k]`, with the zero value `d` of the value type for a missing key. -/
def getD [DecidableEq K] (m : GoMap K V) (k : K) (d : V) : V :=
  (lookup m k).getD d

/-- The assignment `m[k] = v`. -/
def set (m : GoMap K V) (k : K) (v : V) : GoMap K V := (k, v) :: m

/-- The keys a `range` over the map visits, each once. -/
def keys [DecidableEq K] (m : GoMap K V) : List K := (m.map Prod.fst).dedup

end GoMap

/-! ## Data model -/

/-- The struct `Result`. -/
structure Result where
  Name : String
  Date : Time
  Nanoseconds : F64

/-- The zero value `Result{}`. -/
def Result.zero : Result := ⟨"", Time.zero, F64.fin 0⟩

/-- The fields of `benchstat.Metrics` that `main` reads. -/
structure Metrics where
  Unit : String
  Mean : F64

/-- The fields of `benchstat.Row` that `main` reads. -/
structure Row where
  Benchmark : String
  Metrics : List Metrics

/-- The fields of `benchstat.Table` that `main` reads. -/
structure Table where
  Rows : List Row

/-- The command-line flags; `reg` is `MatchString` of the compiled `regex`. -/
structure Flags where
  metricName : String
  reg : String → Bool
  relative : Bool
  rolling : Int

/-- The matrix `results`. -/
abbrev Results := GoMap String (GoMap Time Result)

/-- A field of a CSV record before it is formatted as text. -/
inductive Field where
  | str (s : String)
  | date (t : Time)
  | num (v : F64)
deriving DecidableEq

/-! ## File name to date -/

/-- The scan of `filepath.Ext`, from the last character backwards. -/
def extAux : List Char → List Char → List Char
  | [], _ => []
  | c :: rest, acc =>
    if c = '/' then [] else if c = '.' then c :: acc else extAux rest (c :: acc)

/-- The function `filepath.Ext`. -/
def filepathExt (path : String) : String := String.mk (extAux path.data.reverse [])

/-- The function `filepath.Base`. -/
def filepathBase (path : String) : String :=
  if path.data = [] then "."
  else
    let p := (path.data.reverse.dropWhile (fun c => c = '/')).reverse
    let e := (p.reverse.takeWhile (fun c => c ≠ '/')).reverse
    if e = [] then "/" else String.mk e

/-- The function `strings.TrimSuffix`. -/
def trimSuffix (s suffix : String) : String :=
  if List.isSuffixOf suffix.data s.data
  then String.mk (s.data.take (s.data.length - suffix.data.length))
  else s

/-- The closure `fileToDate`. -/
def fileToDate (commitToDate : GoMap String Time) (file : String) : Time :=
  let sha := trimSuffix (filepathBase file) (filepathExt file)
  GoMap.getD commitToDate sha Time.zero

/-! ## The matrix builder -/

/-- One iteration of the innermost loop over `row.Metrics`; `none` is the
run-time panic of `files[i]` out of range. -/
def addMetric (fl : Flags) (commitToDate : GoMap String Time) (files : List String)
    (bench : String) (results : Results) (i : Nat) (metric : Metrics) : Option Results :=
  if metric.Unit ≠ fl.metricName then some results
  else if fl.reg bench = false then some results
  else
    match files[i]? with
    | none => none
    | some file =>
      let date := fileToDate commitToDate file
      if date.Before goodDataStart then some results
      else
        let result : Result := ⟨bench, date, metric.Mean⟩
        let results1 : Results :=
          if (GoMap.lookup results bench).isNone then GoMap.set results bench [] else results
        some (GoMap.set results1 bench (GoMap.set (GoMap.getD results1 bench []) date result))

/-- The loop `for i, metric := range row.Metrics`, from index `i`. -/
def addMetricsFrom (fl : Flags) (commitToDate : GoMap String Time) (files : List String)
    (bench : String) : Nat → List Metrics → Results → Option Results
  | _, [], results => some results
  | i, metric :: rest, results =>
    match addMetric fl commitToDate files bench results i metric with
    | none => none
    | some results1 => addMetricsFrom fl commitToDate files bench (i + 1) rest results1

/-- The loop `for _, row := range t.Rows`. -/
def addRows (fl : Flags) (commitToDate : GoMap String Time) (files : List String) :
    List Row → Results → Option Results
  | [], results => some results
  | row :: rest, results =>
    match addMetricsFrom fl commitToDate files row.Benchmark 0 row.Metrics results with
    | none => none
    | some results1 => addRows fl commitToDate files rest results1

/-- The loop `for _, t := range c.Tables()`. -/
def addTables (fl : Flags) (commitToDate : GoMap String Time) (files : List String) :
    List Table → Results → Option Results
  | [], results => some results
  | t :: rest, results =>
    match addRows fl commitToDate files t.Rows results with
    | none => none
    | some results1 => addTables fl commitToDate files rest results1

/-- The matrix `results` after the three nested loops. -/
def buildResults (fl : Flags) (commitToDate : GoMap String Time) (files : List String)
    (tables : List Table) : Option Results :=
  addTables fl commitToDate files tables []

/-! ## Key lists and baselines -/

/-- The call `sort.Strings`. -/
def sortStrings (l : List String) : List String :=
  l.insertionSort (fun a b => a ≤ b)

/-- The call `sort.Slice` with `Before` as `less`: afterwards no element is
before one that precedes it. -/
def sortDates (l : List Time) : List Time :=
  l.insertionSort (fun a b => a.nanos ≤ b.nanos)

/-- The slice `testKeys`. -/
def testKeys (results : Results) : List String :=
  sortStrings (GoMap.keys results)

/-- The map `dateSet`. -/
def dateSet (results : Results) (tks : List String) : GoMap Time Unit :=
  tks.foldl
    (fun ds k =>
      (GoMap.keys (GoMap.getD results k [])).foldl (fun ds1 date => GoMap.set ds1 date ()) ds)
    []

/-- The slice `dateKeys`. -/
def dateKeys (results : Results) : List Time :=
  sortDates (GoMap.keys (dateSet results (testKeys results)))

/-- The expression `results[test][date].Nanoseconds`. -/
def raw (results : Results) (test : String) (date : Time) : F64 :=
  (GoMap.getD (GoMap.getD results test []) date Result.zero).Nanoseconds

/-- The body of the loops that fill `firstResult`. -/
def firstStep (results : Results) (date : Time) (fr : GoMap String F64) (test : String) :
    GoMap String F64 :=
  if (GoMap.lookup fr test).isSome then fr
  else if almostEqual (raw results test date) (F64.fin 0) then fr
  else GoMap.set fr test (raw results test date)

/-- The map `firstResult` after walking the dates `dks` and, at each, the tests `tks`. -/
def firstResult (results : Results) (tks : List String) (dks : List Time) :
    GoMap String F64 :=
  dks.foldl (fun fr date => tks.foldl (firstStep results date) fr) []

/-! ## The row loop -/

/-- The state `rollingResults`. -/
abbrev Rolling := GoMap String (List F64)

/-- The body of `for _, test := range testKeys`: the value `res` and the new
`rollingResults`. -/
def cell (fl : Flags) (results : Results) (fr : GoMap String F64) (date : Time)
    (test : String) (rr : Rolling) : F64 × Rolling :=
  let res := raw results test date
  if fl.relative then
    let res1 := F64.div res (GoMap.getD fr test (F64.fin 0))
    (if almostEqual res1 (F64.fin 0) then F64.fin 1 else res1, rr)
  else if fl.rolling > 0 then
    let res1 :=
      if (GoMap.getD rr test []).length > 0 then F64.div res (avg (GoMap.getD rr test []))
      else F64.fin 1
    let rr1 : Rolling :=
      if almostEqual (raw results test date) (F64.fin 0) = false then
        let rr2 := GoMap.set rr test (GoMap.getD rr test [] ++ [raw results test date])
        if ((GoMap.getD rr2 test []).length : Int) = fl.rolling
        then GoMap.set rr2 test ((GoMap.getD rr2 test []).drop 1)
        else rr2
      else rr
    (res1, rr1)
  else (res, rr)

/-- One test of a row: the record grows by the formatted `res`. -/
def rowStep (fl : Flags) (results : Results) (fr : GoMap String F64) (date : Time)
    (acc : Rolling × List Field) (test : String) : Rolling × List Field :=
  let c := cell fl results fr date test acc.1
  (c.2, acc.2 ++ [Field.num c.1])

/-- The record of one date. -/
def doRow (fl : Flags) (results : Results) (fr : GoMap String F64)
    (dateToCommit : GoMap Time String) (tks : List String) (rr : Rolling) (date : Time) :
    Rolling × List Field :=
  tks.foldl (rowStep fl results fr date)
    (rr, [Field.str (GoMap.getD dateToCommit date ""), Field.date date])

/-- The loop `for _, date := range dateKeys`: the state and the records written so far. -/
def doRows (fl : Flags) (results : Results) (fr : GoMap String F64)
    (dateToCommit : GoMap Time String) (tks : List String) :
    List Time → Rolling × List (List Field) → Rolling × List (List Field)
  | [], acc => acc
  | date :: rest, acc =>
    let r := doRow fl results fr dateToCommit tks acc.1 date
    doRows fl results fr dateToCommit tks rest (r.1, acc.2 ++ [r.2])

/-- The header record. -/
def header (tks : List String) : List Field :=
  [Field.str "SHA", Field.str "Date"] ++ tks.map Field.str

/-- The records written for the key lists `tks` and `dks`: the header, then one per date. -/
def emit (fl : Flags) (results : Results) (dateToCommit : GoMap Time String)
    (tks : List String) (dks : List Time) : List (List Field) :=
  (doRows fl results (firstResult results tks dks) dateToCommit tks dks ([], [header tks])).2

/-- The CSV records `main` writes for the matrix `results`. -/
def report (fl : Flags) (results : Results) (dateToCommit : GoMap Time String) :
    List (List Field) :=
  emit fl results dateToCommit (testKeys results) (dateKeys results)

/-- The run of `main` from the loaded timeline on: `none` is a panic. -/
def run (fl : Flags) (commitToDate : GoMap String Time) (dateToCommit : GoMap Time String)
    (files : List String) (tables : List Table) : Option (List (List Field)) :=
  (buildResults fl commitToDate files tables).map (fun results => report fl results dateToCommit)

/-- The field of the record of the `i`-th date in the column of the `j`-th benchmark. -/
def valueAt (out : List (List Field)) (i j : Nat) : Option Field :=
  (out[i + 1]?).bind (fun row => row[j + 2]?)

/-! ## Per-benchmark view of the row loop -/

/-- The effect of `cell` for a value `v` on the window `w` of its own benchmark. -/
def windowStep (fl : Flags) (w : List F64) (v : F64) : List F64 :=
  if fl.relative = false ∧ fl.rolling > 0 ∧ almostEqual v (F64.fin 0) = false then
    (if (((w ++ [v]).length : Nat) : Int) = fl.rolling then (w ++ [v]).drop 1 else w ++ [v])
  else w

/-- The window of `test` after the rows of the dates `pre`, from the window `w0`. -/
def windowAt (fl : Flags) (results : Results) (test : String) (pre : List Time)
    (w0 : List F64) : List F64 :=
  pre.foldl (fun w d => windowStep fl w (raw results test d)) w0

/-- The value `res` of `cell` when the window of its benchmark is `w`. -/
def cellValue (fl : Flags) (results : Results) (fr : GoMap String F64) (date : Time)
    (test : String) (w : List F64) : F64 :=
  if fl.relative then
    (if almostEqual (F64.div (raw results test date) (GoMap.getD fr test (F64.fin 0)))
        (F64.fin 0)
     then F64.fin 1
     else F64.div (raw results test date) (GoMap.getD fr test (F64.fin 0)))
  else if fl.rolling > 0 then
    (if w.length > 0 then F64.div (raw results test date) (avg w) else F64.fin 1)
  else raw results test date

/-- The record of the date `date` when the rows of the dates `pre` came before it. -/
def rowOf (fl : Flags) (results : Results) (fr : GoMap String F64)
    (dateToCommit : GoMap Time String) (tks : List String) (pre : List Time) (date : Time) :
    List Field :=
  [Field.str (GoMap.getD dateToCommit date ""), Field.date date] ++
    tks.map (fun t => Field.num (cellValue fl results fr date t (windowAt fl results t pre [])))

/-- The records of the dates `dks` when the rows of the dates `pre` came before them. -/
def rowsOf (fl : Flags) (results : Results) (fr : GoMap String F64)
    (dateToCommit : GoMap Time String) (tks : List String) :
    List Time → List Time → List (List Field)
  | _, [] => []
  | pre, d :: ds =>
    rowOf fl results fr dateToCommit tks pre d ::
      rowsOf fl results fr dateToCommit tks (pre ++ [d]) ds

/-- Whether the matrix holds a cell for `(test, date)`. -/
def hasCell (results : Results) (test : String) (date : Time) : Bool :=
  (GoMap.lookup (GoMap.getD results test []) date).isSome

/-! ## The timeline loader -/

/-- The call `strings.Split(s, "\n")` on the characters of `s`. -/
def splitLines : List Char → List (List Char)
  | [] => [[]]
  | c :: cs =>
    if c = '\n' then [] :: splitLines cs
    else
      match splitLines cs with
      | [] => [[c]]
      | l :: ls => (c :: l) :: ls

/-- The cut of a line at its first comma: what is before it and what is after it, `none`
for a line without comma. -/
def cutComma : List Char → Option (List Char × List Char)
  | [] => none
  | c :: cs =>
    if c = ',' then some ([], cs) else (cutComma cs).map (fun p => (c :: p.1, p.2))

/-- The call `strings.SplitN(l, ",", 2)`. -/
def splitN2 (l : List Char) : List (List Char) :=
  match cutComma l with
  | none => [l]
  | some p => [p.1, p.2]

/-- The maps `commitToDate` and `dateToCommit`. -/
structure Timeline where
  commitToDate : GoMap String Time
  dateToCommit : GoMap Time String
deriving DecidableEq

/-- The body of the loop over the lines of the commit-dates file, for line number `n`;
`parse n` is the call `time.Parse(rfc2822, ·)` made for that line and `none` is
`log.Fatalf`. -/
def loadLine (parse : Nat → String → Option Time) (n : Nat) (tl : Timeline)
    (l : List Char) : Option Timeline :=
  if l.length = 0 then some tl
  else
    match splitN2 l with
    | [a, b] =>
      match parse n (String.mk b) with
      | none => none
      | some tm =>
        some ⟨GoMap.set tl.commitToDate (String.mk a) tm,
          GoMap.set tl.dateToCommit tm (String.mk a)⟩
    | _ => none

/-- The loop over the lines, from line number `n`. -/
def loadLines (parse : Nat → String → Option Time) :
    Nat → List (List Char) → Timeline → Option Timeline
  | _, [], tl => some tl
  | n, l :: ls, tl =>
    match loadLine parse n tl l with
    | none => none
    | some tl1 => loadLines parse (n + 1) ls tl1

/-- The two maps built from the text `f` of the commit-dates file. -/
def loadTimeline (parse : Nat → String → Option Time) (f : String) : Option Timeline :=
  loadLines parse 0 (splitLines f.data) ⟨[], []⟩

/-- The run of `main` from the text of the commit-dates file: `none` is a fatal error or a
panic. -/
def mainRun (parse : Nat → String → Option Time) (fl : Flags) (commitDates : String)
    (files : List String) (tables : List Table) : Option (List (List Field)) :=
  match loadTimeline parse commitDates with
  | none => none
  | some tl => run fl tl.commitToDate tl.dateToCommit files tables

/-- The pair of revision and timestamp of line number `n`: the text before the first comma
and the parse of the text after it. -/
def lineEntry (parse : Nat → String → Option Time) (n : Nat) (l : List Char) :
    Option (String × Time) :=
  match cutComma l with
  | none => none
  | some p => (parse n (String.mk p.2)).map (fun tm => (String.mk p.1, tm))

/-- The pairs of the non-empty lines from line number `n` on, in the order of the lines. -/
def entriesFrom (parse : Nat → String → Option Time) :
    Nat → List (List Char) → List (String × Time)
  | _, [] => []
  | n, l :: ls =>
    (if l = [] then [] else (lineEntry parse n l).toList) ++ entriesFrom parse (n + 1) ls

/-- The pairs of the non-empty lines, in the order of the lines. -/
def entries (parse : Nat → String → Option Time) (ls : List (List Char)) :
    List (String × Time) :=
  entriesFrom parse 0 ls

/-- The first field of the record of the `i`-th date: the SHA column. -/
def shaAt (out : List (List Field)) (i : Nat) : Option Field :=
  (out[i + 1]?).bind (fun row => row[0]?)

/-! ## The samples of the tables, in iteration order -/

/-- A metric met by the three nested loops: the benchmark of its row, its index in
`row.Metrics` and the metric. -/
structure Sample where
  bench : String
  index : Nat
  metric : Metrics

/-- The samples of `row.Metrics` from index `i` on, in the order of the loop. -/
def rowSamplesFrom (bench : String) : Nat → List Metrics → List Sample
  | _, [] => []
  | i, m :: ms => ⟨bench, i, m⟩ :: rowSamplesFrom bench (i + 1) ms

/-- The samples of a row. -/
def rowSamples (row : Row) : List Sample := rowSamplesFrom row.Benchmark 0 row.Metrics

/-- The samples of the rows of a table. -/
def rowsSamples (rows : List Row) : List Sample := rows.flatMap rowSamples

/-- The samples of all tables, in the order the loops meet them. -/
def tableSamples (tables : List Table) : List Sample :=
  tables.flatMap (fun t => rowsSamples t.Rows)

/-- The date under which `addMetric` records the sample, `none` when one of the three
`continue` tests skips it (or `files` has no such index). -/
def accepted (fl : Flags) (commitToDate : GoMap String Time) (files : List String)
    (s : Sample) : Option Time :=
  if s.metric.Unit ≠ fl.metricName then none
  else if fl.reg s.bench = false then none
  else
    match files[s.index]? with
    | none => none
    | some file =>
      if (fileToDate commitToDate file).Before goodDataStart then none
      else some (fileToDate commitToDate file)

/-- The cell `(name, date)` after the samples, from the cell `init`: each sample recorded
under that key overwrites it. -/
def cellFold (fl : Flags) (commitToDate : GoMap String Time) (files : List String)
    (name : String) (date : Time) (samples : List Sample) (init : Option Result) :
    Option Result :=
  samples.foldl
    (fun acc s =>
      if s.bench = name ∧ accepted fl commitToDate files s = some date
      then some ⟨name, date, s.metric.Mean⟩ else acc)
    init

/-- The last sample, in iteration order, that is recorded under the key `(name, date)`. -/
def lastSample (fl : Flags) (commitToDate : GoMap String Time) (files : List String)
    (name : String) (date : Time) (samples : List Sample) : Option Sample :=
  (samples.filter
    (fun s => decide (s.bench = name ∧ accepted fl commitToDate files s = some date))).getLast?

/-- Every benchmark that is a key of the matrix has a cell. -/
def Good (r : Results) : Prop :=
  ∀ b, (GoMap.lookup r b).isSome = true → ∃ d, hasCell r b d = true

/-- The matrix `r1` is `r` after the samples were recorded. -/
def Builds (fl : Flags) (commitToDate : GoMap String Time) (files : List String)
    (samples : List Sample) (r r1 : Results) : Prop :=
  (Good r → Good r1) ∧
    ∀ name date, GoMap.lookup (GoMap.getD r1 name []) date =
      cellFold fl commitToDate files name date samples
        (GoMap.lookup (GoMap.getD r name []) date)

/-- The dates of the data records of a report: the second field of every record after the
header. -/
def rowDates (out : List (List Field)) : List Time :=
  out.tail.filterMap
    (fun row =>
      match row[1]? with
      | some (Field.date d) => some d
      | _ => none)

/-- What the range over `dateSet` followed by `sort.Slice` may leave in `dateKeys`: the
recorded dates in an order in which no date is before one that precedes it.  The order of
two dates of equal instants is not fixed by the code. -/
def IsDateWalk (results : Results) (dks : List Time) : Prop :=
  dks.Perm (dateKeys results) ∧ dks.Pairwise (fun a b => b.Before a = false)

instance decIsDateWalk (results : Results) (dks : List Time) :
    Decidable (IsDateWalk results dks) := by
  unfold IsDateWalk
  infer_instance

/-- Whether the value of `(test, date)` counts as non-zero: the negation of
`almostEqual(results[test][date].Nanoseconds, 0)`. -/
def nonZero (results : Results) (test : String) (date : Time) : Bool :=
  !almostEqual (raw results test date) (F64.fin 0)

/-! ## The order of instants -/

instance nanosLeTotal : IsTotal Time (fun a b => a.nanos ≤ b.nanos) :=
  ⟨fun a b => le_total a.nanos b.nanos⟩

instance nanosLeTrans : IsTrans Time (fun a b => a.nanos ≤ b.nanos) :=
  ⟨fun _ _ _ h1 h2 => le_trans h1 h2⟩

/-! ## Sample inputs -/

/-- The instant 2021-01-01T00:00:00Z. -/
def day1 : Time := ⟨1609459200000000000, 0⟩

/-- The instant 2021-01-02T00:00:00Z. -/
def day2 : Time := ⟨1609545600000000000, 0⟩

/-- The instant 2021-01-03T00:00:00Z. -/
def day3 : Time := ⟨1609632000000000000, 0⟩

/-- A timeline of two revisions, `abc` on `day1` and `def` on `day2`. -/
def sampleCommitToDate : GoMap String Time := [("def", day2), ("abc", day1)]

/-- The reverse map of `sampleCommitToDate`. -/
def sampleDateToCommit : GoMap Time String := [(day2, "def"), (day1, "abc")]

/-- The input files of the two revisions. -/
def sampleFiles : List String := ["/tmp/bench/abc.txt", "/tmp/bench/def.txt"]

/-- One table with `BenchmarkFoo` at 100 ns/op in the first file and 200 ns/op in the second. -/
def sampleTables : List Table :=
  [⟨[⟨"BenchmarkFoo", [⟨"ns/op", F64.fin 100⟩, ⟨"ns/op", F64.fin 200⟩]⟩]⟩]

/-- The matrix of `sampleTables`: `BenchmarkFoo` is 100 on `day1` and 200 on `day2`. -/
def sampleResults : Results :=
  [("BenchmarkFoo",
    [(day2, ⟨"BenchmarkFoo", day2, F64.fin 200⟩), (day1, ⟨"BenchmarkFoo", day1, F64.fin 100⟩)])]

/-- The flags `-metric ns/op -regex .` with the given `-relative` and `-rolling`. -/
def sampleFlags (relative : Bool) (rolling : Int) : Flags :=
  ⟨"ns/op", fun _ => true, relative, rolling⟩

/-- A timeline of three revisions, `abc` on `day1`, `def` on `day2` and `ghi` on `day3`. -/
def sampleCommitToDate3 : GoMap String Time := [("ghi", day3), ("def", day2), ("abc", day1)]

/-- The reverse map of `sampleCommitToDate3`. -/
def sampleDateToCommit3 : GoMap Time String := [(day3, "ghi"), (day2, "def"), (day1, "abc")]

/-- The input files of the three revisions. -/
def sampleFiles3 : List String :=
  ["/tmp/bench/abc.txt", "/tmp/bench/def.txt", "/tmp/bench/ghi.txt"]

/-- The instant of `day1` as a time in another zone (location 1, such as `+0100`). -/
def day1Zone : Time := ⟨1609459200000000000, 1⟩

/-- A timeline whose two revisions were committed at the same instant in two zones. -/
def tieCommitToDate : GoMap String Time := [("def", day1Zone), ("abc", day1)]

/-- The reverse map of `tieCommitToDate`. -/
def tieDateToCommit : GoMap Time String := [(day1Zone, "def"), (day1, "abc")]

/-- As `tieCommitToDate`, with a third revision `ghi` on `day2`. -/
def tieCommitToDate3 : GoMap String Time := [("ghi", day2), ("def", day1Zone), ("abc", day1)]

/-- The reverse map of `tieCommitToDate3`. -/
def tieDateToCommit3 : GoMap Time String := [(day2, "ghi"), (day1Zone, "def"), (day1, "abc")]

/-- The instant 2020-06-01T00:00:00Z, before the cutoff. -/
def june1 : Time := ⟨1590969600000000000, 0⟩

/-- The timeline `abc,Mon, 1 Jun 2020 00:00:00 +0000`. -/
def juneCommitToDate : GoMap String Time := [("abc", june1)]

/-- The reverse map of `juneCommitToDate`. -/
def juneDateToCommit : GoMap Time String := [(june1, "abc")]

/-- One table with `BenchmarkFoo` at 100 ns/op in the only file. -/
def juneTables : List Table := [⟨[⟨"BenchmarkFoo", [⟨"ns/op", F64.fin 100⟩]⟩]⟩]

/-- Two benchmarks in three files: `BenchmarkFoo` is measured in the first file (100 ns/op)
and the third (300 ns/op), `BenchmarkBar` in the second (50 ns/op) and the third
(60 ns/op); a missing metric is the empty `Metrics` of `benchstat`. -/
def gapTables : List Table :=
  [⟨[⟨"BenchmarkFoo", [⟨"ns/op", F64.fin 100⟩, ⟨"", F64.fin 0⟩, ⟨"ns/op", F64.fin 300⟩]⟩,
    ⟨"BenchmarkBar", [⟨"", F64.fin 0⟩, ⟨"ns/op", F64.fin 50⟩, ⟨"ns/op", F64.fin 60⟩]⟩]⟩]

/-- The matrix of `gapTables` for `sampleFiles3` and `sampleCommitToDate3`. -/
def gapResults : Results :=
  [("BenchmarkBar",
      [(day3, ⟨"BenchmarkBar", day3, F64.fin 60⟩), (day2, ⟨"BenchmarkBar", day2, F64.fin 50⟩)]),
    ("BenchmarkFoo",
      [(day3, ⟨"BenchmarkFoo", day3, F64.fin 300⟩),
        (day1, ⟨"BenchmarkFoo", day1, F64.fin 100⟩)])]

/-- As `gapTables`, with `BenchmarkFoo` measured at 0 ns/op. -/
def zeroTables : List Table :=
  [⟨[⟨"BenchmarkFoo", [⟨"ns/op", F64.fin 0⟩, ⟨"", F64.fin 0⟩, ⟨"ns/op", F64.fin 0⟩]⟩,
    ⟨"BenchmarkBar", [⟨"", F64.fin 0⟩, ⟨"ns/op", F64.fin 50⟩, ⟨"ns/op", F64.fin 60⟩]⟩]⟩]

/-- One table with `BenchmarkFoo` at NaN ns/op in the first file and 200 ns/op in the
second. -/
def nanTables : List Table :=
  [⟨[⟨"BenchmarkFoo", [⟨"ns/op", F64.nan⟩, ⟨"ns/op", F64.fin 200⟩]⟩]⟩]

/-- One table with `BenchmarkFoo` at NaN ns/op in the only file. -/
def nanOnlyTables : List Table := [⟨[⟨"BenchmarkFoo", [⟨"ns/op", F64.nan⟩]⟩]⟩]

/-- One table with `BenchmarkFoo` at `2 ^ -27` ns/op (about 7.45e-9) in the first file and
`2 ^ -10` ns/op in the second. -/
def tinyTables : List Table :=
  [⟨[⟨"BenchmarkFoo", [⟨"ns/op", F64.fin (1 / 134217728)⟩, ⟨"ns/op", F64.fin (1 / 1024)⟩]⟩]⟩]

/-- One table with `BenchmarkFoo` at 100 and 200 ns/op in two files. -/
def tieTablesFoo : List Table :=
  [⟨[⟨"BenchmarkFoo", [⟨"ns/op", F64.fin 100⟩, ⟨"ns/op", F64.fin 200⟩]⟩]⟩]

/-- Two benchmarks in three files: `BenchmarkFoo` at 100 and 200 ns/op in the first two,
`BenchmarkBar` at 5 ns/op in the third. -/
def tieTablesFive : List Table :=
  [⟨[⟨"BenchmarkFoo", [⟨"ns/op", F64.fin 100⟩, ⟨"ns/op", F64.fin 200⟩, ⟨"", F64.fin 0⟩]⟩,
    ⟨"BenchmarkBar", [⟨"", F64.fin 0⟩, ⟨"", F64.fin 0⟩, ⟨"ns/op", F64.fin 5⟩]⟩]⟩]

/-- As `tieTablesFive`, with `BenchmarkBar` at 7 ns/op. -/
def tieTablesSeven : List Table :=
  [⟨[⟨"BenchmarkFoo", [⟨"ns/op", F64.fin 100⟩, ⟨"ns/op", F64.fin 200⟩, ⟨"", F64.fin 0⟩]⟩,
    ⟨"BenchmarkBar", [⟨"", F64.fin 0⟩, ⟨"", F64.fin 0⟩, ⟨"ns/op", F64.fin 7⟩]⟩]⟩]

/-- A stand-in for `time.Parse(rfc2822, ·)` that knows three dates in UTC, whose results
share the location of UTC whatever the line. -/
def sampleParse (_ : Nat) (s : String) : Option Time :=
  if s = "Fri, 1 Jan 2021 00:00:00 +0000" then some day1
  else if s = "Sat, 2 Jan 2021 00:00:00 +0000" then some day2
  else if s = "Mon, 1 Jun 2020 00:00:00 +0000" then some june1
  else none

/-- A stand-in for `time.Parse(rfc2822, ·)` that also knows one date at the offset `+0530`,
for which every call allocates a location of its own (location `n + 1` for line `n`). -/
def zoneParse (n : Nat) (s : String) : Option Time :=
  if s = "Fri, 1 Jan 2021 05:30:00 +0530" then some ⟨1609459200000000000, n + 1⟩
  else sampleParse n s

/-- A commit-dates file of two revisions, newest first as `git log` prints them. -/
def sampleCommitDates : String :=
  "def,Sat, 2 Jan 2021 00:00:00 +0000\nabc,Fri, 1 Jan 2021 00:00:00 +0000\n"

/-- A commit-dates file in which two revisions carry the same timestamp in UTC. -/
def dupCommitDates : String :=
  "abc,Fri, 1 Jan 2021 00:00:00 +0000\ndef,Fri, 1 Jan 2021 00:00:00 +0000"

/-- A commit-dates file in which two revisions carry the same timestamp at `+0530`. -/
def dupZoneCommitDates : String :=
  "abc,Fri, 1 Jan 2021 05:30:00 +0530\ndef,Fri, 1 Jan 2021 05:30:00 +0530"

/-! ## Lemmas: maps and the comparison with zero -/

namespace GoMap

variable {K V : Type} [DecidableEq K]

theorem lookup_set (m : GoMap K V) (k k' : K) (v : V) :
    lookup (set m k v) k' = if k = k' then some v else lookup m k' := by
  simp [set, lookup]

theorem getD_set (m : GoMap K V) (k k' : K) (v d : V) :
    getD (set m k v) k' d = if k = k' then v else getD m k' d := by
  unfold getD
  rw [lookup_set]
  split <;> rfl

theorem lookup_isSome_iff (m : GoMap K V) (k : K) :
    (lookup m k).isSome = true ↔ k ∈ m.map Prod.fst := by
  induction m with
  | nil => simp [lookup]
  | cons p m ih =>
    obtain ⟨k', v⟩ := p
    by_cases h : k' = k
    · simp [lookup, h]
    · have h' : ¬ k = k' := fun e => h e.symm
      simp [lookup, h, h', ih]

theorem mem_keys (m : GoMap K V) (k : K) : k ∈ keys m ↔ (lookup m k).isSome = true := by
  rw [lookup_isSome_iff]
  simp [keys]

theorem keys_nodup (m : GoMap K V) : (keys m).Nodup := List.nodup_dedup _

end GoMap

theorem rnd_zero : F64.rnd 0 = F64.fin 0 := by
  simp [F64.rnd]

theorem rnd_one : F64.rnd 1 = F64.fin 1 := by
  decide!

theorem threshold_eq :
    float64EqualityThreshold = F64.fin (3022314549036573 / 302231454903657293676544) := by
  decide!

theorem almostEqual_fin_zero (q : ℚ) :
    almostEqual (F64.fin q) (F64.fin 0) = F64.le (F64.abs (F64.rnd q)) float64EqualityThreshold := by
  simp [almostEqual, F64.sub, F64.neg, F64.add]

theorem almostEqual_zero_zero : almostEqual (F64.fin 0) (F64.fin 0) = true := by
  decide!

theorem almostEqual_one_zero : almostEqual (F64.fin 1) (F64.fin 0) = false := by
  decide!

theorem almostEqual_nan_zero : almostEqual F64.nan (F64.fin 0) = false := by
  decide!

theorem almostEqual_posInf_zero : almostEqual F64.posInf (F64.fin 0) = false := by
  decide!

theorem almostEqual_negInf_zero : almostEqual F64.negInf (F64.fin 0) = false := by
  decide!

theorem fin_ne_zero_of_not_almostEqual (v : ℚ)
    (h : almostEqual (F64.fin v) (F64.fin 0) = false) : v ≠ 0 := by
  intro h0
  rw [h0, almostEqual_zero_zero] at h
  exact Bool.noConfusion h

theorem ne_zero_of_not_almostEqual (x : F64) (h : almostEqual x (F64.fin 0) = false) :
    x ≠ F64.fin 0 := by
  intro h0
  rw [h0, almostEqual_zero_zero] at h
  exact Bool.noConfusion h

theorem finite_of_almostEqual (x : F64) (h : almostEqual x (F64.fin 0) = true) :
    ∃ q, x = F64.fin q := by
  cases x with
  | fin q => exact ⟨q, rfl⟩
  | posInf => rw [almostEqual_posInf_zero] at h; exact Bool.noConfusion h
  | negInf => rw [almostEqual_negInf_zero] at h; exact Bool.noConfusion h
  | nan => rw [almostEqual_nan_zero] at h; exact Bool.noConfusion h

theorem div_self_fin (v : ℚ) (hv : v ≠ 0) : F64.div (F64.fin v) (F64.fin v) = F64.fin 1 := by
  simp [F64.div, hv, rnd_one]

theorem div_zero_fin (v : ℚ) (hv : v ≠ 0) : F64.div (F64.fin 0) (F64.fin v) = F64.fin 0 := by
  simp [F64.div, hv, rnd_zero]

theorem div_zero_of_ne (x : F64) (h0 : x ≠ F64.fin 0) (hn : x ≠ F64.nan) :
    F64.div (F64.fin 0) x = F64.fin 0 := by
  cases x with
  | fin q =>
    have hq : q ≠ 0 := fun e => h0 (by rw [e])
    exact div_zero_fin q hq
  | posInf => rfl
  | negInf => rfl
  | nan => exact absurd rfl hn

theorem almostEqual_div_zero (x : F64) (hx : ∃ q, x = F64.fin q) :
    almostEqual (F64.div x (F64.fin 0)) (F64.fin 0) = false := by
  obtain ⟨a, rfl⟩ := hx
  unfold F64.div
  by_cases h0 : a = 0
  · simp only [h0, if_true]
    exact almostEqual_nan_zero
  · by_cases hp : 0 < a
    · simp only [h0, hp, if_true, if_false]
      exact almostEqual_posInf_zero
    · simp only [h0, hp, if_false]
      exact almostEqual_negInf_zero

/-! ## Lemmas: the row loop -/

theorem cell_fst (fl : Flags) (results : Results) (fr : GoMap String F64) (date : Time)
    (test : String) (rr : Rolling) :
    (cell fl results fr date test rr).1 =
      cellValue fl results fr date test (GoMap.getD rr test []) := by
  unfold cell cellValue
  by_cases h1 : fl.relative = true
  · simp [h1]
  · by_cases h2 : fl.rolling > 0
    · simp [h1, h2]
    · simp [h1, h2]

theorem cell_snd (fl : Flags) (results : Results) (fr : GoMap String F64) (date : Time)
    (test b : String) (rr : Rolling) :
    GoMap.getD (cell fl results fr date test rr).2 b [] =
      if b = test then windowStep fl (GoMap.getD rr test []) (raw results test date)
      else GoMap.getD rr b [] := by
  unfold cell windowStep
  by_cases h1 : fl.relative = true
  · by_cases hb : b = test
    · simp [h1, hb]
    · simp [h1, hb]
  · have h1' : fl.relative = false := by simpa using h1
    by_cases h2 : fl.rolling > 0
    · by_cases h3 : almostEqual ((raw results test date)) (F64.fin 0) = false
      · simp only [h1', h2, h3, GoMap.getD_set, if_true, Bool.false_eq_true, if_false,
          true_and, and_self]
        by_cases hb : b = test
        · subst hb
          split_ifs <;> simp_all [GoMap.getD_set]
        · have hb' : ¬ test = b := fun e => hb e.symm
          split_ifs <;> simp_all [GoMap.getD_set]
      · by_cases hb : b = test
        · simp [h1', h2, h3, hb]
        · simp [h1', h2, h3, hb]
    · by_cases hb : b = test
      · simp [h1', h2, hb]
      · simp [h1', h2, hb]

theorem foldl_rowStep (fl : Flags) (results : Results) (fr : GoMap String F64) (date : Time)
    (ts : List String) (hts : ts.Nodup) (rr : Rolling) (row : List Field) :
    (ts.foldl (rowStep fl results fr date) (rr, row)).2 =
        row ++ ts.map (fun t => Field.num (cellValue fl results fr date t (GoMap.getD rr t [])))
      ∧ ∀ b, GoMap.getD (ts.foldl (rowStep fl results fr date) (rr, row)).1 b [] =
          if b ∈ ts then windowStep fl (GoMap.getD rr b []) (raw results b date)
          else GoMap.getD rr b [] := by
  induction ts generalizing rr row with
  | nil => simp
  | cons t ts ih =>
    have hnd := List.nodup_cons.mp hts
    have hstep : rowStep fl results fr date (rr, row) t =
        ((cell fl results fr date t rr).2,
          row ++ [Field.num (cellValue fl results fr date t (GoMap.getD rr t []))]) := by
      simp [rowStep, cell_fst]
    rw [List.foldl_cons, hstep]
    obtain ⟨ih1, ih2⟩ := ih hnd.2 (cell fl results fr date t rr).2
      (row ++ [Field.num (cellValue fl results fr date t (GoMap.getD rr t []))])
    constructor
    · rw [ih1, List.map_cons, List.append_assoc, List.singleton_append]
      congr 2
      apply List.map_congr_left
      intro t' ht'
      have hne : ¬ t' = t := fun e => hnd.1 (e ▸ ht')
      rw [cell_snd, if_neg hne]
    · intro b
      rw [ih2 b]
      by_cases hb : b = t
      · subst hb
        simp [hnd.1, cell_snd]
      · by_cases hb' : b ∈ ts
        · simp [hb, hb', cell_snd]
        · simp [hb, hb', cell_snd]

theorem doRow_snd (fl : Flags) (results : Results) (fr : GoMap String F64)
    (dateToCommit : GoMap Time String) (tks : List String) (htks : tks.Nodup) (rr : Rolling)
    (date : Time) :
    (doRow fl results fr dateToCommit tks rr date).2 =
      [Field.str (GoMap.getD dateToCommit date ""), Field.date date] ++
        tks.map (fun t => Field.num (cellValue fl results fr date t (GoMap.getD rr t []))) :=
  (foldl_rowStep fl results fr date tks htks rr _).1

theorem doRow_fst (fl : Flags) (results : Results) (fr : GoMap String F64)
    (dateToCommit : GoMap Time String) (tks : List String) (htks : tks.Nodup) (rr : Rolling)
    (date : Time) (b : String) :
    GoMap.getD (doRow fl results fr dateToCommit tks rr date).1 b [] =
      if b ∈ tks then windowStep fl (GoMap.getD rr b []) (raw results b date)
      else GoMap.getD rr b [] :=
  (foldl_rowStep fl results fr date tks htks rr _).2 b

theorem windowAt_snoc (fl : Flags) (results : Results) (test : String) (pre : List Time)
    (d : Time) (w0 : List F64) :
    windowAt fl results test (pre ++ [d]) w0 =
      windowStep fl (windowAt fl results test pre w0) (raw results test d) := by
  simp [windowAt, List.foldl_append]

theorem doRows_eq (fl : Flags) (results : Results) (fr : GoMap String F64)
    (dateToCommit : GoMap Time String) (tks : List String) (htks : tks.Nodup)
    (dks pre : List Time) (rr : Rolling) (out : List (List Field))
    (hrr : ∀ t ∈ tks, GoMap.getD rr t [] = windowAt fl results t pre []) :
    (doRows fl results fr dateToCommit tks dks (rr, out)).2 =
      out ++ rowsOf fl results fr dateToCommit tks pre dks := by
  induction dks generalizing pre rr out with
  | nil => simp [doRows, rowsOf]
  | cons d ds ih =>
    have hrow : (doRow fl results fr dateToCommit tks rr d).2 =
        rowOf fl results fr dateToCommit tks pre d := by
      rw [doRow_snd fl results fr dateToCommit tks htks]
      unfold rowOf
      congr 1
      apply List.map_congr_left
      intro t ht
      rw [hrr t ht]
    have hnext : ∀ t ∈ tks,
        GoMap.getD (doRow fl results fr dateToCommit tks rr d).1 t [] =
          windowAt fl results t (pre ++ [d]) [] := by
      intro t ht
      rw [doRow_fst fl results fr dateToCommit tks htks, if_pos ht, hrr t ht, windowAt_snoc]
    show (doRows fl results fr dateToCommit tks ds
        ((doRow fl results fr dateToCommit tks rr d).1,
          out ++ [(doRow fl results fr dateToCommit tks rr d).2])).2 = _
    rw [ih (pre ++ [d]) _ _ hnext, hrow]
    simp [rowsOf]

theorem rowsOf_length (fl : Flags) (results : Results) (fr : GoMap String F64)
    (dateToCommit : GoMap Time String) (tks : List String) (pre dks : List Time) :
    (rowsOf fl results fr dateToCommit tks pre dks).length = dks.length := by
  induction dks generalizing pre with
  | nil => simp [rowsOf]
  | cons d ds ih => simp [rowsOf, ih]

theorem rowsOf_get? (fl : Flags) (results : Results) (fr : GoMap String F64)
    (dateToCommit : GoMap Time String) (tks : List String) (pre dks : List Time) (i : Nat)
    (d : Time) (hd : dks[i]? = some d) :
    (rowsOf fl results fr dateToCommit tks pre dks)[i]? =
      some (rowOf fl results fr dateToCommit tks (pre ++ dks.take i) d) := by
  induction dks generalizing pre i with
  | nil => simp at hd
  | cons d0 ds ih =>
    cases i with
    | zero =>
      simp at hd
      subst hd
      simp [rowsOf]
    | succ i =>
      simp at hd
      have h := ih (pre ++ [d0]) i (by simpa using hd)
      simp at h
      simp [rowsOf, h]

theorem emit_eq (fl : Flags) (results : Results) (dateToCommit : GoMap Time String)
    (tks : List String) (htks : tks.Nodup) (dks : List Time) :
    emit fl results dateToCommit tks dks =
      header tks :: rowsOf fl results (firstResult results tks dks) dateToCommit tks [] dks := by
  unfold emit
  rw [doRows_eq fl results _ dateToCommit tks htks dks [] [] [header tks]]
  · rfl
  · intro t _
    simp [windowAt, GoMap.getD, GoMap.lookup]

theorem valueAt_emit (fl : Flags) (results : Results) (dateToCommit : GoMap Time String)
    (tks : List String) (htks : tks.Nodup) (dks : List Time) (i j : Nat) (d : Time)
    (t : String) (hd : dks[i]? = some d) (ht : tks[j]? = some t) :
    valueAt (emit fl results dateToCommit tks dks) i j =
      some (Field.num (cellValue fl results (firstResult results tks dks) d t
        (windowAt fl results t (dks.take i) []))) := by
  rw [emit_eq fl results dateToCommit tks htks dks]
  unfold valueAt
  have h := rowsOf_get? fl results (firstResult results tks dks) dateToCommit tks [] dks i d hd
  simp at h
  simp [h, rowOf, ht]

/-! ## Lemmas: the key lists -/

theorem testKeys_nodup (results : Results) : (testKeys results).Nodup :=
  (List.perm_insertionSort _ _).nodup_iff.mpr (GoMap.keys_nodup results)

theorem testKeys_sorted (results : Results) :
    (testKeys results).Sorted (fun a b => a < b) :=
  (List.sorted_insertionSort (fun a b : String => a ≤ b) _).lt_of_le (testKeys_nodup results)

theorem mem_testKeys (results : Results) (b : String) :
    b ∈ testKeys results ↔ (GoMap.lookup results b).isSome = true := by
  unfold testKeys sortStrings
  rw [(List.perm_insertionSort _ _).mem_iff, GoMap.mem_keys]

theorem mem_keys_foldl_set (l : List Time) (ds : GoMap Time Unit) (d : Time) :
    d ∈ GoMap.keys (l.foldl (fun ds1 date => GoMap.set ds1 date ()) ds) ↔
      d ∈ l ∨ d ∈ GoMap.keys ds := by
  induction l generalizing ds with
  | nil => simp
  | cons a l ih =>
    rw [List.foldl_cons, ih]
    simp only [GoMap.mem_keys, GoMap.lookup_set, List.mem_cons]
    by_cases h : a = d
    · simp [h]
    · have h' : ¬ d = a := fun e => h e.symm
      simp [h, h']

theorem mem_keys_dateSet_aux (results : Results) (tks : List String) (ds : GoMap Time Unit)
    (d : Time) :
    d ∈ GoMap.keys (tks.foldl
        (fun ds k =>
          (GoMap.keys (GoMap.getD results k [])).foldl (fun ds1 date => GoMap.set ds1 date ()) ds)
        ds) ↔
      (∃ k ∈ tks, d ∈ GoMap.keys (GoMap.getD results k [])) ∨ d ∈ GoMap.keys ds := by
  induction tks generalizing ds with
  | nil => simp
  | cons k tks ih =>
    rw [List.foldl_cons, ih, mem_keys_foldl_set]
    simp only [List.mem_cons, exists_eq_or_imp]
    generalize (∃ k ∈ tks, d ∈ GoMap.keys (GoMap.getD results k [])) = P
    tauto

theorem mem_keys_dateSet (results : Results) (tks : List String) (d : Time) :
    d ∈ GoMap.keys (dateSet results tks) ↔
      ∃ k ∈ tks, d ∈ GoMap.keys (GoMap.getD results k []) := by
  unfold dateSet
  rw [mem_keys_dateSet_aux]
  simp [GoMap.keys]

theorem hasCell_lookup (results : Results) (b : String) (d : Time)
    (h : hasCell results b d = true) : (GoMap.lookup results b).isSome = true := by
  unfold hasCell GoMap.getD at h
  cases hl : GoMap.lookup results b with
  | none => simp [hl, GoMap.lookup] at h
  | some m => rfl

theorem mem_dateKeys (results : Results) (d : Time) :
    d ∈ dateKeys results ↔ ∃ b, hasCell results b d = true := by
  unfold dateKeys sortDates
  rw [(List.perm_insertionSort _ _).mem_iff, mem_keys_dateSet]
  constructor
  · rintro ⟨k, _, hk⟩
    exact ⟨k, (GoMap.mem_keys _ _).mp hk⟩
  · rintro ⟨b, hb⟩
    exact ⟨b, (mem_testKeys results b).mpr (hasCell_lookup results b d hb),
      (GoMap.mem_keys _ _).mpr hb⟩

theorem dateKeys_nodup (results : Results) : (dateKeys results).Nodup :=
  (List.perm_insertionSort _ _).nodup_iff.mpr (GoMap.keys_nodup _)

theorem dateKeys_sorted (results : Results) :
    (dateKeys results).Sorted (fun a b => a.nanos ≤ b.nanos) :=
  List.sorted_insertionSort (fun a b : Time => a.nanos ≤ b.nanos) _

theorem raw_of_not_hasCell (results : Results) (b : String) (d : Time)
    (h : hasCell results b d = false) : raw results b d = F64.fin 0 := by
  unfold hasCell at h
  unfold raw
  rw [GoMap.getD]
  cases hl : GoMap.lookup (GoMap.getD results b []) d with
  | none => simp [Result.zero]
  | some r => simp [hl] at h

theorem valueAt_report (fl : Flags) (results : Results) (dateToCommit : GoMap Time String)
    (i j : Nat) (d : Time) (t : String) (hd : (dateKeys results)[i]? = some d)
    (ht : (testKeys results)[j]? = some t) :
    valueAt (report fl results dateToCommit) i j =
      some (Field.num (cellValue fl results
        (firstResult results (testKeys results) (dateKeys results)) d t
        (windowAt fl results t ((dateKeys results).take i) []))) :=
  valueAt_emit fl results dateToCommit _ (testKeys_nodup results) _ i j d t hd ht

/-! ## Lemmas: baselines and windows -/

theorem lookup_foldl_firstStep (results : Results) (date : Time) (tks : List String)
    (fr : GoMap String F64) (b : String) :
    GoMap.lookup (tks.foldl (firstStep results date) fr) b =
      if b ∈ tks then
        (if (GoMap.lookup fr b).isSome then GoMap.lookup fr b
         else if almostEqual ((raw results b date)) (F64.fin 0) then none
         else some (raw results b date))
      else GoMap.lookup fr b := by
  induction tks generalizing fr with
  | nil => simp
  | cons t ts ih =>
    rw [List.foldl_cons, ih]
    by_cases hbt : b = t
    · subst hbt
      unfold firstStep
      cases hl : GoMap.lookup fr b with
      | some v => simp [hl]
      | none =>
        by_cases hae : almostEqual ((raw results b date)) (F64.fin 0) = true
        · simp [hl, hae]
        · simp [hl, hae, GoMap.lookup_set]
    · have hne : ¬ t = b := fun e => hbt e.symm
      have hsame : GoMap.lookup (firstStep results date fr t) b = GoMap.lookup fr b := by
        unfold firstStep
        split_ifs <;> simp [GoMap.lookup_set, hne]
      simp [hsame, hbt]

theorem lookup_firstResult_some (results : Results) (tks : List String) (dks : List Time)
    (fr : GoMap String F64) (b : String) (v : F64) (h : GoMap.lookup fr b = some v) :
    GoMap.lookup (dks.foldl (fun fr date => tks.foldl (firstStep results date) fr) fr) b =
      some v := by
  induction dks generalizing fr with
  | nil => simpa using h
  | cons d ds ih =>
    rw [List.foldl_cons]
    apply ih
    rw [lookup_foldl_firstStep]
    simp [h]

theorem lookup_firstResult_first (results : Results) (tks : List String) (b : String)
    (hb : b ∈ tks) (dks : List Time) (fr : GoMap String F64) (hfr : GoMap.lookup fr b = none)
    (i0 : Nat) (d0 : Time) (hd0 : dks[i0]? = some d0)
    (hnz : almostEqual ((raw results b d0)) (F64.fin 0) = false)
    (hfirst : ∀ i' d', i' < i0 → dks[i']? = some d' →
      almostEqual ((raw results b d')) (F64.fin 0) = true) :
    GoMap.lookup (dks.foldl (fun fr date => tks.foldl (firstStep results date) fr) fr) b =
      some (raw results b d0) := by
  induction dks generalizing fr i0 with
  | nil => simp at hd0
  | cons d ds ih =>
    rw [List.foldl_cons]
    cases i0 with
    | zero =>
      simp at hd0
      subst hd0
      apply lookup_firstResult_some
      rw [lookup_foldl_firstStep]
      simp [hb, hfr, hnz]
    | succ i =>
      have hd : almostEqual ((raw results b d)) (F64.fin 0) = true :=
        hfirst 0 d (Nat.succ_pos i) (by simp)
      apply ih _ _ i (by simpa using hd0)
      · intro i' d' hi' hd'
        exact hfirst (i' + 1) d' (Nat.succ_lt_succ hi') (by simpa using hd')
      · rw [lookup_foldl_firstStep]
        simp [hb, hfr, hd]

theorem windowStep_of_zero (fl : Flags) (w : List F64) (v : F64)
    (h : almostEqual v (F64.fin 0) = true) : windowStep fl w v = w := by
  simp [windowStep, h]

theorem windowAt_nil_of_zero (fl : Flags) (results : Results) (t : String) (pre : List Time)
    (h : ∀ d ∈ pre, almostEqual ((raw results t d)) (F64.fin 0) = true) :
    windowAt fl results t pre [] = [] := by
  unfold windowAt
  induction pre with
  | nil => rfl
  | cons d ds ih =>
    rw [List.foldl_cons, windowStep_of_zero fl [] _ (h d (List.mem_cons_self d ds))]
    exact ih (fun d' hd' => h d' (List.mem_cons_of_mem d hd'))

theorem exists_index_of_mem_take {α : Type} (l : List α) (i : Nat) (a : α)
    (h : a ∈ l.take i) : ∃ i', i' < i ∧ l[i']? = some a := by
  rw [List.mem_iff_getElem?] at h
  obtain ⟨n, hn⟩ := h
  rw [List.getElem?_take] at hn
  split at hn
  · exact ⟨n, ‹_›, hn⟩
  · simp at hn

/-! ## Lemmas: the matrix builder -/

theorem Builds_nil (fl : Flags) (commitToDate : GoMap String Time) (files : List String)
    (r : Results) : Builds fl commitToDate files [] r r :=
  ⟨id, fun _ _ => rfl⟩

theorem Builds_append (fl : Flags) (commitToDate : GoMap String Time) (files : List String)
    (l1 l2 : List Sample) (r r1 r2 : Results) (h1 : Builds fl commitToDate files l1 r r1)
    (h2 : Builds fl commitToDate files l2 r1 r2) :
    Builds fl commitToDate files (l1 ++ l2) r r2 := by
  refine ⟨fun hg => h2.1 (h1.1 hg), fun name date => ?_⟩
  rw [h2.2, h1.2]
  simp [cellFold, List.foldl_append]

theorem getD_set_empty (r : Results) (bench x : String)
    (h : (GoMap.lookup r bench).isNone = true) :
    GoMap.getD (GoMap.set r bench []) x [] = GoMap.getD r x [] := by
  rw [GoMap.getD_set]
  by_cases hx : bench = x
  · subst hx
    cases hl : GoMap.lookup r bench with
    | none => simp [GoMap.getD, hl]
    | some v => simp [hl] at h
  · simp [hx]

theorem addMetric_spec (fl : Flags) (commitToDate : GoMap String Time) (files : List String)
    (bench : String) (r : Results) (i : Nat) (m : Metrics) (hi : i < files.length) :
    ∃ r1, addMetric fl commitToDate files bench r i m = some r1 ∧
      Builds fl commitToDate files [⟨bench, i, m⟩] r r1 := by
  obtain ⟨file, hfile⟩ : ∃ file, files[i]? = some file :=
    ⟨files[i], List.getElem?_eq_getElem hi⟩
  unfold addMetric
  by_cases h1 : m.Unit ≠ fl.metricName
  · refine ⟨r, by simp [h1], id, fun name date => ?_⟩
    simp [cellFold, accepted, h1]
  · by_cases h2 : fl.reg bench = false
    · refine ⟨r, by simp [h1, h2], id, fun name date => ?_⟩
      simp [cellFold, accepted, h2]
    · by_cases h3 : (fileToDate commitToDate file).Before goodDataStart = true
      · refine ⟨r, by simp [h1, h2, hfile, h3], id, fun name date => ?_⟩
        simp [cellFold, accepted, hfile, h3]
      · have hgetD : ∀ x, GoMap.getD
            (if (GoMap.lookup r bench).isNone = true then GoMap.set r bench [] else r) x [] =
            GoMap.getD r x [] := by
          intro x
          by_cases hn : (GoMap.lookup r bench).isNone = true
          · rw [if_pos hn, getD_set_empty r bench x hn]
          · rw [if_neg hn]
        have hlook : ∀ x, x ≠ bench → GoMap.lookup
            (if (GoMap.lookup r bench).isNone = true then GoMap.set r bench [] else r) x =
            GoMap.lookup r x := by
          intro x hx
          have hx' : ¬ bench = x := fun e => hx e.symm
          split_ifs <;> simp [GoMap.lookup_set, hx']
        refine ⟨GoMap.set
            (if (GoMap.lookup r bench).isNone = true then GoMap.set r bench [] else r) bench
            (GoMap.set (GoMap.getD
              (if (GoMap.lookup r bench).isNone = true then GoMap.set r bench [] else r)
              bench []) (fileToDate commitToDate file)
              ⟨bench, fileToDate commitToDate file, m.Mean⟩),
          by simp [h1, h2, hfile, h3], ?_, fun name date => ?_⟩
        · intro hg b hb
          by_cases hbb : b = bench
          · subst hbb
            refine ⟨fileToDate commitToDate file, ?_⟩
            simp [hasCell, GoMap.getD_set, GoMap.lookup_set]
          · have hbb' : ¬ bench = b := fun e => hbb e.symm
            rw [GoMap.lookup_set, if_neg hbb', hlook b hbb] at hb
            obtain ⟨d, hd⟩ := hg b hb
            refine ⟨d, ?_⟩
            unfold hasCell at hd ⊢
            rw [GoMap.getD_set, if_neg hbb', hgetD]
            exact hd
        · rw [GoMap.getD_set]
          by_cases hbn : bench = name
          · subst hbn
            have h1' : m.Unit = fl.metricName := by simpa using h1
            have h2' : fl.reg bench = true := by simpa using h2
            have h3' : (fileToDate commitToDate file).Before goodDataStart = false := by
              simpa using h3
            by_cases hdd : fileToDate commitToDate file = date
            · subst hdd
              simp [cellFold, accepted, h1', h2', hfile, h3', GoMap.lookup_set]
            · simp [cellFold, accepted, h1', h2', hfile, h3', hdd, GoMap.lookup_set, hgetD]
          · simp [cellFold, hbn, hgetD]

theorem addMetricsFrom_spec (fl : Flags) (commitToDate : GoMap String Time)
    (files : List String) (bench : String) (ms : List Metrics) (i : Nat) (r : Results)
    (h : i + ms.length ≤ files.length) :
    ∃ r1, addMetricsFrom fl commitToDate files bench i ms r = some r1 ∧
      Builds fl commitToDate files (rowSamplesFrom bench i ms) r r1 := by
  induction ms generalizing i r with
  | nil => exact ⟨r, rfl, Builds_nil fl commitToDate files r⟩
  | cons m ms ih =>
    have hlen : i + 1 + ms.length ≤ files.length := by
      simp only [List.length_cons] at h
      omega
    obtain ⟨r1, hr1, hb1⟩ := addMetric_spec fl commitToDate files bench r i m (by omega)
    obtain ⟨r2, hr2, hb2⟩ := ih (i + 1) r1 hlen
    refine ⟨r2, ?_, ?_⟩
    · simp [addMetricsFrom, hr1, hr2]
    · exact Builds_append fl commitToDate files [⟨bench, i, m⟩] _ r r1 r2 hb1 hb2

theorem addRows_spec (fl : Flags) (commitToDate : GoMap String Time) (files : List String)
    (rows : List Row) (r : Results)
    (h : ∀ row ∈ rows, row.Metrics.length ≤ files.length) :
    ∃ r1, addRows fl commitToDate files rows r = some r1 ∧
      Builds fl commitToDate files (rowsSamples rows) r r1 := by
  induction rows generalizing r with
  | nil => exact ⟨r, rfl, Builds_nil fl commitToDate files r⟩
  | cons row rows ih =>
    obtain ⟨r1, hr1, hb1⟩ := addMetricsFrom_spec fl commitToDate files row.Benchmark
      row.Metrics 0 r (by simpa using h row (List.mem_cons_self row rows))
    obtain ⟨r2, hr2, hb2⟩ := ih r1 (fun row' h' => h row' (List.mem_cons_of_mem row h'))
    refine ⟨r2, ?_, ?_⟩
    · simp [addRows, hr1, hr2]
    · have := Builds_append fl commitToDate files _ _ r r1 r2 hb1 hb2
      simpa [rowsSamples, rowSamples] using this

theorem addTables_spec (fl : Flags) (commitToDate : GoMap String Time) (files : List String)
    (tables : List Table) (r : Results)
    (h : ∀ t ∈ tables, ∀ row ∈ t.Rows, row.Metrics.length ≤ files.length) :
    ∃ r1, addTables fl commitToDate files tables r = some r1 ∧
      Builds fl commitToDate files (tableSamples tables) r r1 := by
  induction tables generalizing r with
  | nil => exact ⟨r, rfl, Builds_nil fl commitToDate files r⟩
  | cons t tables ih =>
    obtain ⟨r1, hr1, hb1⟩ := addRows_spec fl commitToDate files t.Rows r
      (h t (List.mem_cons_self t tables))
    obtain ⟨r2, hr2, hb2⟩ := ih r1 (fun t' h' => h t' (List.mem_cons_of_mem t h'))
    refine ⟨r2, ?_, ?_⟩
    · simp [addTables, hr1, hr2]
    · have := Builds_append fl commitToDate files _ _ r r1 r2 hb1 hb2
      simpa [tableSamples] using this

theorem cellFold_eq_lastSample (fl : Flags) (commitToDate : GoMap String Time)
    (files : List String) (name : String) (date : Time) (samples : List Sample)
    (init : Option Result) :
    cellFold fl commitToDate files name date samples init =
      match lastSample fl commitToDate files name date samples with
      | some s => some ⟨name, date, s.metric.Mean⟩
      | none => init := by
  induction samples using List.reverseRecOn with
  | nil => simp [cellFold, lastSample]
  | append_singleton l s ih =>
    unfold cellFold lastSample at ih ⊢
    rw [List.foldl_append, List.filter_append, List.getLast?_append]
    by_cases hp : s.bench = name ∧ accepted fl commitToDate files s = some date
    · simp [hp]
    · have hf : List.filter
          (fun s => decide (s.bench = name ∧ accepted fl commitToDate files s = some date))
          [s] = [] := by
        simp [hp]
      rw [hf]
      simp only [List.foldl_cons, List.foldl_nil, if_neg hp, List.getLast?_nil, Option.or]
      exact ih

theorem lastSample_isSome_iff (fl : Flags) (commitToDate : GoMap String Time)
    (files : List String) (name : String) (date : Time) (samples : List Sample) :
    (lastSample fl commitToDate files name date samples).isSome = true ↔
      ∃ s ∈ samples, s.bench = name ∧ accepted fl commitToDate files s = some date := by
  unfold lastSample
  rw [Option.isSome_iff_ne_none, ne_eq, List.getLast?_eq_none_iff, List.filter_eq_nil_iff]
  simp

theorem mem_rowSamplesFrom (bench : String) (ms : List Metrics) (i : Nat) (s : Sample) :
    s ∈ rowSamplesFrom bench i ms ↔
      s.bench = bench ∧ i ≤ s.index ∧ ms[s.index - i]? = some s.metric := by
  induction ms generalizing i with
  | nil => simp [rowSamplesFrom]
  | cons m ms ih =>
    simp only [rowSamplesFrom, List.mem_cons, ih]
    constructor
    · rintro (h | ⟨h1, h2, h3⟩)
      · subst h
        simp
      · refine ⟨h1, by omega, ?_⟩
        have : s.index - i = (s.index - (i + 1)) + 1 := by omega
        rw [this]
        simpa using h3
    · rintro ⟨h1, h2, h3⟩
      by_cases he : s.index = i
      · left
        rw [he] at h3
        simp at h3
        cases s
        simp_all
      · right
        refine ⟨h1, by omega, ?_⟩
        have : s.index - i = (s.index - (i + 1)) + 1 := by omega
        rw [this] at h3
        simpa using h3

theorem mem_tableSamples (tables : List Table) (s : Sample) :
    s ∈ tableSamples tables ↔
      ∃ t ∈ tables, ∃ row ∈ t.Rows,
        row.Benchmark = s.bench ∧ row.Metrics[s.index]? = some s.metric := by
  simp only [tableSamples, rowsSamples, rowSamples, List.mem_flatMap, mem_rowSamplesFrom]
  constructor
  · rintro ⟨t, ht, row, hrow, h1, _, h3⟩
    exact ⟨t, ht, row, hrow, h1.symm, by simpa using h3⟩
  · rintro ⟨t, ht, row, hrow, h1, h3⟩
    exact ⟨t, ht, row, hrow, h1.symm, Nat.zero_le _, by simpa using h3⟩

theorem accepted_eq_some (fl : Flags) (commitToDate : GoMap String Time)
    (files : List String) (s : Sample) (date : Time) :
    accepted fl commitToDate files s = some date ↔
      s.metric.Unit = fl.metricName ∧ fl.reg s.bench = true ∧
        ∃ file, files[s.index]? = some file ∧ fileToDate commitToDate file = date ∧
          date.Before goodDataStart = false := by
  unfold accepted
  by_cases h1 : s.metric.Unit = fl.metricName
  · by_cases h2 : fl.reg s.bench = true
    · cases hf : files[s.index]? with
      | none => simp [h1, h2]
      | some file =>
        by_cases h3 : (fileToDate commitToDate file).Before goodDataStart = true
        · simp only [h1, h2, h3]
          constructor
          · intro h
            simp at h
          · rintro ⟨_, _, file', hfile', hd, hb⟩
            have : file' = file := by simpa using hfile'.symm
            subst this
            subst hd
            rw [h3] at hb
            simp at hb
        · have h3' : (fileToDate commitToDate file).Before goodDataStart = false := by
            simpa using h3
          simp only [h1, h2, h3']
          constructor
          · intro h
            have hd : fileToDate commitToDate file = date := by simpa using h
            subst hd
            exact ⟨trivial, trivial, file, rfl, rfl, h3'⟩
          · rintro ⟨_, _, file', hfile', hd, _⟩
            have : file' = file := by simpa using hfile'.symm
            subst this
            simp [hd]
    · simp [h1, h2]
  · simp [h1]

theorem Good_nil : Good [] := by
  intro b hb
  simp [GoMap.lookup] at hb

theorem buildResults_spec (fl : Flags) (commitToDate : GoMap String Time)
    (files : List String) (tables : List Table)
    (h : ∀ t ∈ tables, ∀ row ∈ t.Rows, row.Metrics.length ≤ files.length) :
    ∃ results, buildResults fl commitToDate files tables = some results ∧ Good results ∧
      ∀ name date, GoMap.lookup (GoMap.getD results name []) date =
        (lastSample fl commitToDate files name date (tableSamples tables)).map
          (fun s => ⟨name, date, s.metric.Mean⟩) := by
  obtain ⟨r, hr, hg, hb⟩ := addTables_spec fl commitToDate files tables [] h
  refine ⟨r, hr, hg Good_nil, fun name date => ?_⟩
  rw [hb, cellFold_eq_lastSample]
  cases lastSample fl commitToDate files name date (tableSamples tables) with
  | none => simp [GoMap.getD, GoMap.lookup]
  | some s => simp

theorem rowDates_rowsOf (fl : Flags) (results : Results) (fr : GoMap String F64)
    (dateToCommit : GoMap Time String) (tks : List String) (pre dks : List Time)
    (hd : List Field) :
    rowDates (hd :: rowsOf fl results fr dateToCommit tks pre dks) = dks := by
  unfold rowDates
  simp only [List.tail_cons]
  induction dks generalizing pre with
  | nil => simp [rowsOf]
  | cons d ds ih =>
    simp only [rowsOf, List.filterMap_cons]
    simp [rowOf, ih]

theorem rowDates_report (fl : Flags) (results : Results) (dateToCommit : GoMap Time String) :
    rowDates (report fl results dateToCommit) = dateKeys results := by
  unfold report
  rw [emit_eq fl results dateToCommit _ (testKeys_nodup results), rowDates_rowsOf]

theorem head_report (fl : Flags) (results : Results) (dateToCommit : GoMap Time String) :
    (report fl results dateToCommit).head? = some (header (testKeys results)) := by
  unfold report
  rw [emit_eq fl results dateToCommit _ (testKeys_nodup results)]
  rfl

/-! ## Lemmas: the timeline loader -/

theorem cutComma_eq_none (l : List Char) : cutComma l = none ↔ ',' ∉ l := by
  induction l with
  | nil => simp [cutComma]
  | cons c cs ih =>
    by_cases hc : c = ','
    · simp [cutComma, hc]
    · have hc' : ¬ ',' = c := fun e => hc e.symm
      simp [cutComma, hc, hc', ih]

theorem cutComma_eq_some (l a b : List Char) :
    cutComma l = some (a, b) ↔ l = a ++ ',' :: b ∧ ',' ∉ a := by
  induction l generalizing a with
  | nil => simp [cutComma]
  | cons c cs ih =>
    by_cases hc : c = ','
    · subst hc
      simp only [cutComma, if_true, Option.some.injEq, Prod.mk.injEq]
      constructor
      · rintro ⟨rfl, rfl⟩
        simp
      · rintro ⟨h1, h2⟩
        cases a with
        | nil =>
          simp at h1
          exact ⟨rfl, h1⟩
        | cons x xs =>
          simp at h1 h2
          exact absurd h1.1 h2.1
    · have hc' : ¬ ',' = c := fun e => hc e.symm
      simp only [cutComma, if_neg hc, Option.map_eq_some', Prod.mk.injEq, Prod.exists]
      constructor
      · rintro ⟨a', b', h, rfl, rfl⟩
        obtain ⟨h1, h2⟩ := (ih a').mp h
        subst h1
        simp [hc', h2]
      · rintro ⟨h1, h2⟩
        cases a with
        | nil =>
          simp at h1
          exact absurd h1.1 hc
        | cons x xs =>
          simp at h1 h2
          obtain ⟨rfl, rfl⟩ := h1
          exact ⟨xs, b, (ih xs).mpr ⟨rfl, h2.2⟩, rfl, rfl⟩

theorem lineEntry_eq_none (parse : Nat → String → Option Time) (n : Nat) (l : List Char) :
    lineEntry parse n l = none ↔
      (',' ∉ l ∨ ∃ a b, l = a ++ ',' :: b ∧ ',' ∉ a ∧ parse n (String.mk b) = none) := by
  unfold lineEntry
  cases hcut : cutComma l with
  | none =>
    simp [(cutComma_eq_none l).mp hcut]
  | some p =>
    obtain ⟨a, b⟩ := p
    obtain ⟨h1, h2⟩ := (cutComma_eq_some l a b).mp hcut
    have hin : ',' ∈ l := by simp [h1]
    simp only [Option.map_eq_none', hin, not_true_eq_false, false_or]
    constructor
    · intro h
      exact ⟨a, b, h1, h2, h⟩
    · rintro ⟨a', b', h1', h2', h⟩
      have := (cutComma_eq_some l a' b').mpr ⟨h1', h2'⟩
      rw [hcut] at this
      simp at this
      rw [this.2]
      exact h

theorem lineEntry_eq_some (parse : Nat → String → Option Time) (n : Nat) (l : List Char)
    (rev : String) (tm : Time) :
    lineEntry parse n l = some (rev, tm) ↔
      ∃ a b, l = a ++ ',' :: b ∧ ',' ∉ a ∧ rev = String.mk a ∧
        parse n (String.mk b) = some tm := by
  unfold lineEntry
  cases hcut : cutComma l with
  | none =>
    have hno := (cutComma_eq_none l).mp hcut
    constructor
    · intro h
      simp at h
    · rintro ⟨a, b, h1, _⟩
      rw [h1] at hno
      simp at hno
  | some p =>
    obtain ⟨a, b⟩ := p
    obtain ⟨h1, h2⟩ := (cutComma_eq_some l a b).mp hcut
    simp only [Option.map_eq_some', Prod.mk.injEq]
    constructor
    · rintro ⟨tm', hp, hr, rfl⟩
      exact ⟨a, b, h1, h2, hr.symm, hp⟩
    · rintro ⟨a', b', h1', h2', hr, hp⟩
      have := (cutComma_eq_some l a' b').mpr ⟨h1', h2'⟩
      rw [hcut] at this
      simp at this
      rw [this.1, this.2]
      exact ⟨tm, hp, hr.symm, rfl⟩

theorem loadLine_eq (parse : Nat → String → Option Time) (n : Nat) (tl : Timeline)
    (l : List Char) :
    loadLine parse n tl l =
      if l = [] then some tl
      else (lineEntry parse n l).map
        (fun e => ⟨GoMap.set tl.commitToDate e.1 e.2, GoMap.set tl.dateToCommit e.2 e.1⟩) := by
  unfold loadLine lineEntry splitN2
  by_cases hl : l = []
  · simp [hl]
  · have hlen : ¬ l.length = 0 := by simpa using hl
    simp only [hlen, if_false, hl]
    cases hcut : cutComma l with
    | none => simp
    | some p =>
      cases hp : parse n (String.mk p.2) with
      | none => simp [hp]
      | some tm => simp [hp]

theorem getLast?_filter_cons {α : Type} (p : α → Bool) (e : α) (l : List α) :
    ((e :: l).filter p).getLast? = ((l.filter p).getLast?).or (if p e then some e else none) := by
  by_cases h : p e = true
  · rw [List.filter_cons_of_pos h, if_pos h]
    have : e :: List.filter p l = [e] ++ List.filter p l := rfl
    rw [this, List.getLast?_append]
    rfl
  · rw [List.filter_cons_of_neg h, if_neg h]
    cases (List.filter p l).getLast? <;> rfl

theorem loadLines_eq_none (parse : Nat → String → Option Time) (ls : List (List Char))
    (n : Nat) (tl : Timeline) :
    loadLines parse n ls tl = none ↔
      ∃ (k : Nat) (l : List Char), ls[k]? = some l ∧ l ≠ [] ∧
        lineEntry parse (n + k) l = none := by
  induction ls generalizing n tl with
  | nil => simp [loadLines]
  | cons l ls ih =>
    unfold loadLines
    rw [loadLine_eq]
    have hsplit : (∃ (k : Nat) (l' : List Char), (l :: ls)[k]? = some l' ∧ l' ≠ [] ∧
          lineEntry parse (n + k) l' = none) ↔
        (l ≠ [] ∧ lineEntry parse n l = none) ∨
          ∃ (k : Nat) (l' : List Char), ls[k]? = some l' ∧ l' ≠ [] ∧
            lineEntry parse (n + 1 + k) l' = none := by
      constructor
      · rintro ⟨k, l', hk, hne, he⟩
        cases k with
        | zero =>
          simp at hk
          subst hk
          exact Or.inl ⟨hne, by simpa using he⟩
        | succ k =>
          refine Or.inr ⟨k, l', by simpa using hk, hne, ?_⟩
          have : n + 1 + k = n + (k + 1) := by omega
          rw [this]
          exact he
      · rintro (⟨hne, he⟩ | ⟨k, l', hk, hne, he⟩)
        · exact ⟨0, l, by simp, hne, by simpa using he⟩
        · refine ⟨k + 1, l', by simpa using hk, hne, ?_⟩
          have : n + (k + 1) = n + 1 + k := by omega
          rw [this]
          exact he
    rw [hsplit]
    by_cases hl : l = []
    · simp [hl, ih]
    · cases he : lineEntry parse n l with
      | none => simp [hl]
      | some e => simp [hl, ih]

theorem loadLines_spec (parse : Nat → String → Option Time) (ls : List (List Char))
    (n : Nat) (tl tl1 : Timeline) (h : loadLines parse n ls tl = some tl1) :
    (∀ rev, GoMap.lookup tl1.commitToDate rev =
        ((((entriesFrom parse n ls).filter (fun e => decide (e.1 = rev))).getLast?).map
          Prod.snd).or (GoMap.lookup tl.commitToDate rev)) ∧
      (∀ tm, GoMap.lookup tl1.dateToCommit tm =
        ((((entriesFrom parse n ls).filter (fun e => decide (e.2 = tm))).getLast?).map
          Prod.fst).or (GoMap.lookup tl.dateToCommit tm)) := by
  induction ls generalizing n tl with
  | nil =>
    simp [loadLines] at h
    subst h
    simp [entriesFrom]
  | cons l ls ih =>
    unfold loadLines at h
    rw [loadLine_eq] at h
    by_cases hl : l = []
    · simp only [hl, if_true] at h
      have := ih (n + 1) tl h
      simpa [entriesFrom, hl] using this
    · cases he : lineEntry parse n l with
      | none => simp [hl, he] at h
      | some e =>
        simp only [hl, if_false, he, Option.map_some'] at h
        obtain ⟨h1, h2⟩ := ih (n + 1) _ h
        constructor
        · intro rev
          rw [h1 rev]
          simp only [entriesFrom, if_neg hl, he, Option.toList_some, List.singleton_append,
            getLast?_filter_cons, GoMap.lookup_set]
          cases ((entriesFrom parse (n + 1) ls).filter
              (fun e => decide (e.1 = rev))).getLast? with
          | some x => simp
          | none =>
            by_cases hr : e.1 = rev
            · simp [hr]
            · simp [hr]
        · intro tm
          rw [h2 tm]
          simp only [entriesFrom, if_neg hl, he, Option.toList_some, List.singleton_append,
            getLast?_filter_cons, GoMap.lookup_set]
          cases ((entriesFrom parse (n + 1) ls).filter
              (fun e => decide (e.2 = tm))).getLast? with
          | some x => simp
          | none =>
            by_cases hr : e.2 = tm
            · simp [hr]
            · simp [hr]

theorem loadTimeline_spec (parse : Nat → String → Option Time) (f : String) (tl : Timeline)
    (h : loadTimeline parse f = some tl) :
    (∀ rev, GoMap.lookup tl.commitToDate rev =
        (((entries parse (splitLines f.data)).filter (fun e => decide (e.1 = rev))).getLast?).map
          Prod.snd) ∧
      (∀ tm, GoMap.lookup tl.dateToCommit tm =
        (((entries parse (splitLines f.data)).filter (fun e => decide (e.2 = tm))).getLast?).map
          Prod.fst) := by
  obtain ⟨h1, h2⟩ := loadLines_spec parse _ 0 _ _ h
  constructor
  · intro rev
    rw [h1 rev]
    simp [GoMap.lookup, entries]
  · intro tm
    rw [h2 tm]
    simp [GoMap.lookup, entries]

theorem mem_entriesFrom (parse : Nat → String → Option Time) (ls : List (List Char)) (n : Nat)
    (e : String × Time) :
    e ∈ entriesFrom parse n ls ↔
      ∃ (k : Nat) (l : List Char), ls[k]? = some l ∧ l ≠ [] ∧
        lineEntry parse (n + k) l = some e := by
  induction ls generalizing n with
  | nil => simp [entriesFrom]
  | cons l ls ih =>
    simp only [entriesFrom, List.mem_append, ih]
    constructor
    · rintro (h | ⟨k, l', hk, hne, he⟩)
      · by_cases hl : l = []
        · simp [hl] at h
        · rw [if_neg hl] at h
          exact ⟨0, l, by simp, hl, by simpa using h⟩
      · refine ⟨k + 1, l', by simpa using hk, hne, ?_⟩
        have : n + (k + 1) = n + 1 + k := by omega
        rw [this]
        exact he
    · rintro ⟨k, l', hk, hne, he⟩
      cases k with
      | zero =>
        simp at hk
        subst hk
        left
        rw [if_neg hne]
        simpa using he
      | succ k =>
        right
        refine ⟨k, l', by simpa using hk, hne, ?_⟩
        have : n + 1 + k = n + (k + 1) := by omega
        rw [this]
        exact he

theorem mem_entries (parse : Nat → String → Option Time) (ls : List (List Char))
    (e : String × Time) :
    e ∈ entries parse ls ↔
      ∃ (k : Nat) (l : List Char), ls[k]? = some l ∧ l ≠ [] ∧ lineEntry parse k l = some e := by
  unfold entries
  rw [mem_entriesFrom]
  simp

/-! ## Lemmas: the baseline is the first value that is not taken for zero -/

theorem find?_eq_head?_filter {α : Type} (p : α → Bool) (l : List α) :
    l.find? p = (l.filter p).head? := by
  induction l with
  | nil => rfl
  | cons a l ih =>
    by_cases h : p a = true
    · rw [List.find?_cons_of_pos _ h, List.filter_cons_of_pos h]
      rfl
    · rw [List.find?_cons_of_neg _ h, List.filter_cons_of_neg h]
      exact ih

theorem nonZero_iff (results : Results) (b : String) (d : Time) :
    nonZero results b d = true ↔ almostEqual (raw results b d) (F64.fin 0) = false := by
  simp [nonZero]

theorem lookup_firstResult_find (results : Results) (tks : List String) (b : String)
    (hb : b ∈ tks) (dks : List Time) (fr : GoMap String F64) (hfr : GoMap.lookup fr b = none) :
    GoMap.lookup (dks.foldl (fun fr date => tks.foldl (firstStep results date) fr) fr) b =
      (dks.find? (nonZero results b)).map (raw results b) := by
  induction dks generalizing fr with
  | nil => simpa using hfr
  | cons d ds ih =>
    rw [List.foldl_cons]
    by_cases hae : almostEqual ((raw results b d)) (F64.fin 0) = true
    · have hp : ¬ nonZero results b d = true := by simp [nonZero, hae]
      rw [List.find?_cons_of_neg _ hp]
      apply ih
      rw [lookup_foldl_firstStep]
      simp [hb, hfr, hae]
    · have hp : nonZero results b d = true := by simpa [nonZero] using hae
      rw [List.find?_cons_of_pos _ hp]
      apply lookup_firstResult_some
      rw [lookup_foldl_firstStep]
      simp [hb, hfr, hae]

theorem lookup_firstResult_none (results : Results) (tks : List String) (b : String)
    (hb : b ∉ tks) (dks : List Time) (fr : GoMap String F64) (hfr : GoMap.lookup fr b = none) :
    GoMap.lookup (dks.foldl (fun fr date => tks.foldl (firstStep results date) fr) fr) b =
      none := by
  induction dks generalizing fr with
  | nil => simpa using hfr
  | cons d ds ih =>
    rw [List.foldl_cons]
    apply ih
    rw [lookup_foldl_firstStep]
    simp [hb, hfr]

theorem baseline_spec (results : Results) (tks : List String) (dks : List Time) (b : String)
    (v : F64) (h : GoMap.lookup (firstResult results tks dks) b = some v) :
    ∃ d ∈ dks, raw results b d = v ∧ almostEqual v (F64.fin 0) = false := by
  by_cases hb : b ∈ tks
  · unfold firstResult at h
    rw [lookup_firstResult_find results tks b hb dks [] rfl] at h
    cases hf : dks.find? (nonZero results b) with
    | none => simp [hf] at h
    | some d =>
      rw [hf] at h
      simp only [Option.map_some', Option.some.injEq] at h
      have hp := List.find?_some hf
      have hm := List.mem_of_find?_eq_some hf
      refine ⟨d, hm, h, ?_⟩
      rw [← h]
      exact (nonZero_iff results b d).mp hp
  · unfold firstResult at h
    rw [lookup_firstResult_none results tks b hb dks [] rfl] at h
    exact Option.noConfusion h

theorem raw_of_lookup (results : Results) (b : String) (d : Time) (r : Result)
    (h : GoMap.lookup (GoMap.getD results b []) d = some r) :
    raw results b d = r.Nanoseconds := by
  unfold raw
  rw [GoMap.getD, h]
  rfl

theorem hasCell_of_nonZero (results : Results) (b : String) (d : Time)
    (h : nonZero results b d = true) : hasCell results b d = true := by
  by_contra hc
  have hc' : hasCell results b d = false := by simpa using hc
  rw [nonZero_iff, raw_of_not_hasCell results b d hc', almostEqual_zero_zero] at h
  exact Bool.noConfusion h

theorem mem_dateKeys_of_nonZero (results : Results) (b : String) (d : Time)
    (h : nonZero results b d = true) : d ∈ dateKeys results :=
  (mem_dateKeys results d).mpr ⟨b, hasCell_of_nonZero results b d h⟩

/-! ## Lemmas: the orders in which the dates may be walked -/

theorem before_false_iff (a b : Time) : a.Before b = false ↔ b.nanos ≤ a.nanos := by
  simp [Time.Before]

theorem isDateWalk_dateKeys (results : Results) : IsDateWalk results (dateKeys results) := by
  refine ⟨List.Perm.refl _, ?_⟩
  have h : (dateKeys results).Pairwise (fun a b => a.nanos ≤ b.nanos) := dateKeys_sorted results
  exact h.imp (fun {a b} hab => (before_false_iff b a).mpr hab)

theorem walk_nodup (results : Results) (dks : List Time) (h : IsDateWalk results dks) :
    dks.Nodup :=
  h.1.nodup_iff.mpr (dateKeys_nodup results)

theorem mem_walk (results : Results) (dks : List Time) (h : IsDateWalk results dks)
    (d : Time) : d ∈ dks ↔ ∃ b, hasCell results b d = true := by
  rw [h.1.mem_iff, mem_dateKeys]

theorem rel_of_mem_take {α : Type} (R : α → α → Prop) (l : List α) (h : l.Pairwise R)
    (i : Nat) (d : α) (hd : l[i]? = some d) (d' : α) (hd' : d' ∈ l.take i) : R d' d := by
  obtain ⟨hi, hget⟩ := List.getElem?_eq_some_iff.mp hd
  have hsplit : l.take i ++ d :: l.drop (i + 1) = l := by
    rw [← hget, ← List.drop_eq_getElem_cons hi, List.take_append_drop]
  have h2 : (l.take i ++ d :: l.drop (i + 1)).Pairwise R := by
    rw [hsplit]
    exact h
  exact (List.pairwise_append.mp h2).2.2 d' hd' d (List.mem_cons_self _ _)

theorem not_before_of_mem_take (results : Results) (dks : List Time)
    (h : IsDateWalk results dks) (i : Nat) (d : Time) (hd : dks[i]? = some d) (d' : Time)
    (hd' : d' ∈ dks.take i) : d' ≠ d ∧ d.Before d' = false :=
  ⟨rel_of_mem_take (fun a b => a ≠ b) dks (walk_nodup results dks h) i d hd d' hd',
    rel_of_mem_take (fun a b => b.Before a = false) dks h.2 i d hd d' hd'⟩

/-! ## The normalisation engine: the three modes -/

theorem cell_congr_relative (m m' : String) (r r' : String → Bool) (n n' : Int)
    (results : Results) (fr : GoMap String F64) (date : Time) (test : String) (rr : Rolling) :
    cell ⟨m, r, true, n⟩ results fr date test rr = cell ⟨m', r', true, n'⟩ results fr date test rr := by
  simp [cell]

theorem cell_congr_absolute (m m' : String) (r r' : String → Bool) (n n' : Int)
    (hn : n ≤ 0) (hn' : n' ≤ 0)
    (results : Results) (fr : GoMap String F64) (date : Time) (test : String) (rr : Rolling) :
    cell ⟨m, r, false, n⟩ results fr date test rr =
      cell ⟨m', r', false, n'⟩ results fr date test rr := by
  have h1 : ¬ n > 0 := not_lt.mpr hn
  have h2 : ¬ n' > 0 := not_lt.mpr hn'
  simp [cell, h1, h2]

theorem doRows_congr (fl fl' : Flags) (results : Results) (fr : GoMap String F64)
    (dateToCommit : GoMap Time String) (tks : List String)
    (h : ∀ date test rr, cell fl results fr date test rr = cell fl' results fr date test rr)
    (dks : List Time) (acc : Rolling × List (List Field)) :
    doRows fl results fr dateToCommit tks dks acc =
      doRows fl' results fr dateToCommit tks dks acc := by
  have hstep : ∀ date, rowStep fl results fr date = rowStep fl' results fr date := by
    intro date
    funext a test
    simp [rowStep, h]
  induction dks generalizing acc with
  | nil => rfl
  | cons d ds ih =>
    simp only [doRows, doRow, hstep]
    exact ih _

theorem valueAt_relative (fl : Flags) (results : Results) (dateToCommit : GoMap Time String)
    (dks : List Time) (hrel : fl.relative = true) (i j : Nat) (d : Time) (b : String)
    (hd : dks[i]? = some d) (hb : (testKeys results)[j]? = some b) (v : F64)
    (hbase : GoMap.getD (firstResult results (testKeys results) dks) b (F64.fin 0) = v) :
    valueAt (emit fl results dateToCommit (testKeys results) dks) i j =
      some (Field.num
        (if almostEqual (F64.div (raw results b d) v) (F64.fin 0) then F64.fin 1
         else F64.div (raw results b d) v)) := by
  rw [valueAt_emit fl results dateToCommit _ (testKeys_nodup results) dks i j d b hd hb]
  unfold cellValue
  rw [if_pos hrel, hbase]

theorem getD_of_lookup {K V : Type} [DecidableEq K] (m : GoMap K V) (k : K) (v d : V)
    (h : GoMap.lookup m k = some v) : GoMap.getD m k d = v := by
  simp [GoMap.getD, h]

/-- C2 as stated fails: `BenchmarkFoo` is NaN in the first file and 200 in the second.
The first value of magnitude above 1e-8 is 200, on the second date, so the claim has the
baseline 200 and the outputs `NaN / 200` and 1; the code takes the NaN as the baseline
(`almostEqual(NaN, 0)` is false) and writes NaN on both rows. -/
theorem C2_counterexample :
    run (sampleFlags true 0) sampleCommitToDate sampleDateToCommit sampleFiles nanTables =
      some [[Field.str "SHA", Field.str "Date", Field.str "BenchmarkFoo"],
        [Field.str "abc", Field.date day1, Field.num F64.nan],
        [Field.str "def", Field.date day2, Field.num F64.nan]] := by
  decide!

/-- C2, amended: in relative mode, for the dates walked in any order `dks`, when the
benchmark `b` of column `j` has at the row `i0` (date `d0`) its first value that
`almostEqual` does not take for zero (a value of magnitude above 1e-8, or NaN), that value
is the baseline kept in `firstResult`; when it is finite the output at row `i0` is
exactly 1; and the output at every row is the float64 quotient `raw / baseline`, replaced
by 1 when `almostEqual` takes the quotient for zero. -/
theorem C2_relative_baseline (fl : Flags) (results : Results)
    (dateToCommit : GoMap Time String) (dks : List Time) (hrel : fl.relative = true)
    (j : Nat) (b : String) (hb : (testKeys results)[j]? = some b)
    (i0 : Nat) (d0 : Time) (hd0 : dks[i0]? = some d0)
    (hnz : almostEqual (raw results b d0) (F64.fin 0) = false)
    (hfirst : ∀ i' d', i' < i0 → dks[i']? = some d' →
      almostEqual (raw results b d') (F64.fin 0) = true) :
    GoMap.lookup (firstResult results (testKeys results) dks) b = some (raw results b d0)
      ∧ (∀ v, raw results b d0 = F64.fin v →
          valueAt (emit fl results dateToCommit (testKeys results) dks) i0 j =
            some (Field.num (F64.fin 1)))
      ∧ ∀ i d, dks[i]? = some d →
          valueAt (emit fl results dateToCommit (testKeys results) dks) i j =
            some (Field.num
              (if almostEqual (F64.div (raw results b d) (raw results b d0)) (F64.fin 0)
               then F64.fin 1
               else F64.div (raw results b d) (raw results b d0))) := by
  have hmem : b ∈ testKeys results := List.mem_iff_getElem?.mpr ⟨j, hb⟩
  have hbase : GoMap.lookup (firstResult results (testKeys results) dks) b =
      some (raw results b d0) :=
    lookup_firstResult_first results _ b hmem dks [] rfl i0 d0 hd0 hnz hfirst
  have hval : ∀ i d, dks[i]? = some d →
      valueAt (emit fl results dateToCommit (testKeys results) dks) i j =
        some (Field.num
          (if almostEqual (F64.div (raw results b d) (raw results b d0)) (F64.fin 0)
           then F64.fin 1
           else F64.div (raw results b d) (raw results b d0))) :=
    fun i d hd => valueAt_relative fl results dateToCommit dks hrel i j d b hd hb _
      (getD_of_lookup _ b _ _ hbase)
  refine ⟨hbase, ?_, hval⟩
  intro v hv
  rw [hval i0 d0 hd0, hv]
  rw [hv] at hnz
  rw [div_self_fin v (fin_ne_zero_of_not_almostEqual v hnz), almostEqual_one_zero]
  rfl

theorem C2_relative_baseline_witness :
    (sampleFlags true 0).relative = true
      ∧ almostEqual (raw sampleResults "BenchmarkFoo" day1) (F64.fin 0) = false
      ∧ GoMap.lookup
          (firstResult sampleResults (testKeys sampleResults) (dateKeys sampleResults))
          "BenchmarkFoo" = some (F64.fin 100)
      ∧ valueAt (report (sampleFlags true 0) sampleResults sampleDateToCommit) 0 0 =
          some (Field.num (F64.fin 1))
      ∧ valueAt (report (sampleFlags true 0) sampleResults sampleDateToCommit) 1 0 =
          some (Field.num (F64.fin 2)) := by
  have h := C2_relative_baseline (sampleFlags true 0) sampleResults sampleDateToCommit
    (dateKeys sampleResults) rfl 0 "BenchmarkFoo" (by decide!) 0 day1 (by decide!)
    (by decide!) (fun i' _ hi' _ => absurd hi' (Nat.not_lt_zero i'))
  refine ⟨rfl, by decide!, h.1, h.2.1 100 (by decide!), ?_⟩
  have h1 := h.2.2 1 day2 (by decide!)
  have h2 : (if almostEqual (F64.div (raw sampleResults "BenchmarkFoo" day2)
        (raw sampleResults "BenchmarkFoo" day1)) (F64.fin 0) then F64.fin 1
      else F64.div (raw sampleResults "BenchmarkFoo" day2)
        (raw sampleResults "BenchmarkFoo" day1)) = F64.fin 2 := by
    decide!
  rw [h2] at h1
  exact h1

/-- C3: in absolute mode (relative off, rolling window size at most 0) the value of the
benchmark of column `j` at the date of row `i` is the value stored in the matrix for that
cell, and 0 when the matrix holds no such cell. -/
theorem C3_absolute_raw_or_zero (fl : Flags) (results : Results)
    (dateToCommit : GoMap Time String) (hrel : fl.relative = false) (hroll : fl.rolling ≤ 0)
    (i j : Nat) (d : Time) (b : String) (hd : (dateKeys results)[i]? = some d)
    (hb : (testKeys results)[j]? = some b) :
    valueAt (report fl results dateToCommit) i j =
      some (Field.num
        (match GoMap.lookup (GoMap.getD results b []) d with
         | some r => r.Nanoseconds
         | none => F64.fin 0)) := by
  rw [valueAt_report fl results dateToCommit i j d b hd hb]
  have h2 : ¬ fl.rolling > 0 := not_lt.mpr hroll
  unfold cellValue raw
  rw [GoMap.getD]
  cases hl : GoMap.lookup (GoMap.getD results b []) d with
  | none => simp [hrel, h2, Result.zero]
  | some r => simp [hrel, h2]

theorem C3_absolute_raw_or_zero_witness :
    (sampleFlags false 0).relative = false ∧ (sampleFlags false 0).rolling ≤ 0
      ∧ (dateKeys sampleResults)[1]? = some day2
      ∧ (testKeys sampleResults)[0]? = some "BenchmarkFoo"
      ∧ valueAt (report (sampleFlags false 0) sampleResults sampleDateToCommit) 1 0 =
          some (Field.num
            (match GoMap.lookup (GoMap.getD sampleResults "BenchmarkFoo" []) day2 with
             | some r => r.Nanoseconds
             | none => F64.fin 0)) :=
  ⟨rfl, by decide, by decide!, by decide!,
    C3_absolute_raw_or_zero (sampleFlags false 0) sampleResults sampleDateToCommit rfl
      (by decide) 1 0 day2 "BenchmarkFoo" (by decide!) (by decide!)⟩

/-- C8 as stated fails: the two files of `BenchmarkFoo` (100 and 200 ns/op) belong to
revisions committed at the same instant in two zones, `day1` and `day1Zone`.  Neither date
is before the other, both hold a cell, so each is a chronologically earliest date of the
benchmark; yet in either order of the walk the row walked second does not show 1: the
report shows 2 at `day1Zone`, and the walk that starts at `day1Zone` shows 1/2 at `day1`. -/
theorem C8_counterexample :
    day1.Before day1Zone = false ∧ day1Zone.Before day1 = false
      ∧ (buildResults (sampleFlags false 3) tieCommitToDate sampleFiles tieTablesFoo).map
          (fun r => (hasCell r "BenchmarkFoo" day1, hasCell r "BenchmarkFoo" day1Zone,
            decide (IsDateWalk r [day1, day1Zone]), decide (IsDateWalk r [day1Zone, day1]))) =
          some (true, true, true, true)
      ∧ run (sampleFlags false 3) tieCommitToDate tieDateToCommit sampleFiles tieTablesFoo =
          some [[Field.str "SHA", Field.str "Date", Field.str "BenchmarkFoo"],
            [Field.str "abc", Field.date day1, Field.num (F64.fin 1)],
            [Field.str "def", Field.date day1Zone, Field.num (F64.fin 2)]]
      ∧ (buildResults (sampleFlags false 3) tieCommitToDate sampleFiles tieTablesFoo).map
          (fun r => emit (sampleFlags false 3) r tieDateToCommit (testKeys r)
            [day1Zone, day1]) =
          some [[Field.str "SHA", Field.str "Date", Field.str "BenchmarkFoo"],
            [Field.str "def", Field.date day1Zone, Field.num (F64.fin 1)],
            [Field.str "abc", Field.date day1, Field.num (F64.fin (1 / 2))]] := by
  decide!

/-- C8, amended: in rolling mode with a window size of at least 1, in whatever admissible
order `dks` the dates are walked, the value of the benchmark `b` of column `j` at a date
`d` is 1 when `d` is strictly before every other date at which `b` has a recorded cell,
whatever the raw value is. -/
theorem C8_rolling_first_occurrence (fl : Flags) (results : Results)
    (dateToCommit : GoMap Time String) (dks : List Time) (hwalk : IsDateWalk results dks)
    (hrel : fl.relative = false) (hroll : 1 ≤ fl.rolling)
    (i j : Nat) (d : Time) (b : String) (hd : dks[i]? = some d)
    (hb : (testKeys results)[j]? = some b)
    (hearliest : ∀ d', hasCell results b d' = true → d' ≠ d → d.Before d' = true) :
    valueAt (emit fl results dateToCommit (testKeys results) dks) i j =
      some (Field.num (F64.fin 1)) := by
  rw [valueAt_emit fl results dateToCommit _ (testKeys_nodup results) dks i j d b hd hb]
  have hw : windowAt fl results b (dks.take i) [] = [] := by
    apply windowAt_nil_of_zero
    intro d' hd'
    obtain ⟨hne, hnb⟩ := not_before_of_mem_take results dks hwalk i d hd d' hd'
    have hno : hasCell results b d' = false := by
      cases hc : hasCell results b d' with
      | false => rfl
      | true =>
        rw [hearliest d' hc hne] at hnb
        exact Bool.noConfusion hnb
    rw [raw_of_not_hasCell results b d' hno]
    exact almostEqual_zero_zero
  have h2 : fl.rolling > 0 := by omega
  simp [cellValue, hrel, h2, hw]

theorem C8_rolling_first_occurrence_witness :
    IsDateWalk sampleResults (dateKeys sampleResults)
      ∧ (sampleFlags false 3).relative = false ∧ 1 ≤ (sampleFlags false 3).rolling
      ∧ (dateKeys sampleResults)[0]? = some day1
      ∧ (testKeys sampleResults)[0]? = some "BenchmarkFoo"
      ∧ hasCell sampleResults "BenchmarkFoo" day1 = true
      ∧ (∀ d', hasCell sampleResults "BenchmarkFoo" d' = true → d' ≠ day1 →
          day1.Before d' = true)
      ∧ valueAt (report (sampleFlags false 3) sampleResults sampleDateToCommit) 0 0 =
          some (Field.num (F64.fin 1)) := by
  have he : ∀ d', hasCell sampleResults "BenchmarkFoo" d' = true → d' ≠ day1 →
      day1.Before d' = true := by
    intro d' hc hne
    have hm : d' ∈ dateKeys sampleResults := (mem_dateKeys sampleResults d').mpr ⟨_, hc⟩
    have hk : dateKeys sampleResults = [day1, day2] := by decide!
    rw [hk] at hm
    simp only [List.mem_cons, List.mem_singleton, List.not_mem_nil, or_false] at hm
    rcases hm with h | h
    · exact absurd h hne
    · rw [h]
      decide
  exact ⟨isDateWalk_dateKeys sampleResults, rfl, by decide, by decide!, by decide!,
    by decide!, he,
    C8_rolling_first_occurrence (sampleFlags false 3) sampleResults sampleDateToCommit
      (dateKeys sampleResults) (isDateWalk_dateKeys sampleResults) rfl (by decide) 0 0 day1
      "BenchmarkFoo" (by decide!) (by decide!) he⟩

/-- C10: relative takes precedence over rolling: with relative on, the report is the same
for every rolling window size; and with relative off the window size is consulted only
when positive, the report being the same for all sizes that are at most 0. -/
theorem C10_relative_precedence (m : String) (r : String → Bool) (n n' : Int)
    (results : Results) (dateToCommit : GoMap Time String) :
    report ⟨m, r, true, n⟩ results dateToCommit = report ⟨m, r, true, n'⟩ results dateToCommit
      ∧ (n ≤ 0 → n' ≤ 0 →
          report ⟨m, r, false, n⟩ results dateToCommit =
            report ⟨m, r, false, n'⟩ results dateToCommit) := by
  constructor
  · unfold report emit
    rw [doRows_congr _ ⟨m, r, true, n'⟩ results _ dateToCommit _
      (fun date test rr => cell_congr_relative m m r r n n' results _ date test rr)]
  · intro hn hn'
    unfold report emit
    rw [doRows_congr _ ⟨m, r, false, n'⟩ results _ dateToCommit _
      (fun date test rr => cell_congr_absolute m m r r n n' hn hn' results _ date test rr)]

theorem C10_relative_precedence_witness :
    report ⟨"ns/op", fun _ => true, true, 5⟩ sampleResults sampleDateToCommit =
        report ⟨"ns/op", fun _ => true, true, -2⟩ sampleResults sampleDateToCommit
      ∧ report ⟨"ns/op", fun _ => true, false, 0⟩ sampleResults sampleDateToCommit =
        report ⟨"ns/op", fun _ => true, false, -2⟩ sampleResults sampleDateToCommit :=
  ⟨(C10_relative_precedence "ns/op" (fun _ => true) 5 (-2) sampleResults sampleDateToCommit).1,
    (C10_relative_precedence "ns/op" (fun _ => true) 0 (-2) sampleResults sampleDateToCommit).2
      (by decide) (by decide)⟩

theorem hasCell_iff_sample (fl : Flags) (commitToDate : GoMap String Time)
    (files : List String) (tables : List Table) (results : Results)
    (hspec : ∀ name date, GoMap.lookup (GoMap.getD results name []) date =
      (lastSample fl commitToDate files name date (tableSamples tables)).map
        (fun s => ⟨name, date, s.metric.Mean⟩))
    (name : String) (date : Time) :
    hasCell results name date = true ↔
      ∃ s ∈ tableSamples tables, s.bench = name ∧
        accepted fl commitToDate files s = some date := by
  unfold hasCell
  rw [hspec, ← lastSample_isSome_iff]
  cases lastSample fl commitToDate files name date (tableSamples tables) <;> simp

/-! ## The matrix builder and the key lists: claims -/

/-- C4: when no row has more metrics than there are input files, the builder returns a
matrix, and the matrix holds a cell for `(name, date)` exactly when some row named `name`
has at some index `i` a metric of the target unit, with `name` matching the filter, whose
date resolved from input file `i` is `date` and is not before the cutoff; the cell is the
mean of the last such sample in iteration order. -/
theorem C4_matrix_builder (fl : Flags) (commitToDate : GoMap String Time)
    (files : List String) (tables : List Table)
    (hrange : ∀ t ∈ tables, ∀ row ∈ t.Rows, row.Metrics.length ≤ files.length) :
    ∃ results, buildResults fl commitToDate files tables = some results ∧
      ∀ name date,
        (hasCell results name date = true ↔
          ∃ t ∈ tables, ∃ row ∈ t.Rows, ∃ (i : Nat) (metric : Metrics) (file : String),
            row.Benchmark = name ∧ row.Metrics[i]? = some metric ∧ files[i]? = some file ∧
              metric.Unit = fl.metricName ∧ fl.reg name = true ∧
              fileToDate commitToDate file = date ∧ date.Before goodDataStart = false) ∧
        GoMap.lookup (GoMap.getD results name []) date =
          (lastSample fl commitToDate files name date (tableSamples tables)).map
            (fun s => ⟨name, date, s.metric.Mean⟩) := by
  obtain ⟨results, hres, _, hspec⟩ := buildResults_spec fl commitToDate files tables hrange
  refine ⟨results, hres, fun name date => ⟨?_, hspec name date⟩⟩
  rw [hasCell_iff_sample fl commitToDate files tables results hspec]
  constructor
  · rintro ⟨s, hs, hname, hacc⟩
    obtain ⟨t, ht, row, hrow, hb, hm⟩ := (mem_tableSamples tables s).mp hs
    obtain ⟨hu, hr, file, hfile, hdate, hbef⟩ :=
      (accepted_eq_some fl commitToDate files s date).mp hacc
    exact ⟨t, ht, row, hrow, s.index, s.metric, file, hb.trans hname, hm, hfile, hu,
      hname ▸ hr, hdate, hbef⟩
  · rintro ⟨t, ht, row, hrow, i, metric, file, hb, hm, hfile, hu, hr, hdate, hbef⟩
    refine ⟨⟨name, i, metric⟩, ?_, rfl, ?_⟩
    · exact (mem_tableSamples tables _).mpr ⟨t, ht, row, hrow, hb, hm⟩
    · exact (accepted_eq_some fl commitToDate files _ date).mpr
        ⟨hu, hr, file, hfile, hdate, hbef⟩

theorem C4_matrix_builder_witness :
    (∀ t ∈ sampleTables, ∀ row ∈ t.Rows, row.Metrics.length ≤ sampleFiles.length) ∧
      ∃ results,
        buildResults (sampleFlags false 0) sampleCommitToDate sampleFiles sampleTables =
          some results ∧
        ∀ name date,
          (hasCell results name date = true ↔
            ∃ t ∈ sampleTables, ∃ row ∈ t.Rows, ∃ (i : Nat) (metric : Metrics) (file : String),
              row.Benchmark = name ∧ row.Metrics[i]? = some metric ∧
                sampleFiles[i]? = some file ∧
                metric.Unit = (sampleFlags false 0).metricName ∧
                (sampleFlags false 0).reg name = true ∧
                fileToDate sampleCommitToDate file = date ∧
                date.Before goodDataStart = false) ∧
          GoMap.lookup (GoMap.getD results name []) date =
            (lastSample (sampleFlags false 0) sampleCommitToDate sampleFiles name date
              (tableSamples sampleTables)).map
              (fun s => ⟨name, date, s.metric.Mean⟩) :=
  ⟨by decide,
    C4_matrix_builder (sampleFlags false 0) sampleCommitToDate sampleFiles sampleTables
      (by decide)⟩

/-- C5: when no row has more metrics than there are input files, the run returns a report
in which no data record has a date before the cutoff 2020-07-18T00:00:00Z, every kept
sample whose date is at or after the cutoff (equal included) has its date among the
records, a benchmark all of whose samples resolve before the cutoff is no column of the
header, and when every sample resolves before the cutoff the report is the header
`SHA,Date` alone. -/
theorem C5_cutoff (fl : Flags) (commitToDate : GoMap String Time)
    (dateToCommit : GoMap Time String) (files : List String) (tables : List Table)
    (hrange : ∀ t ∈ tables, ∀ row ∈ t.Rows, row.Metrics.length ≤ files.length) :
    ∃ results, buildResults fl commitToDate files tables = some results ∧
      run fl commitToDate dateToCommit files tables = some (report fl results dateToCommit) ∧
      (report fl results dateToCommit).head? =
        some ([Field.str "SHA", Field.str "Date"] ++ (testKeys results).map Field.str) ∧
      (∀ d ∈ rowDates (report fl results dateToCommit), d.Before goodDataStart = false) ∧
      (∀ s ∈ tableSamples tables, ∀ file, s.metric.Unit = fl.metricName →
        fl.reg s.bench = true → files[s.index]? = some file →
        goodDataStart.nanos ≤ (fileToDate commitToDate file).nanos →
        fileToDate commitToDate file ∈ rowDates (report fl results dateToCommit)) ∧
      (∀ name,
        (∀ s ∈ tableSamples tables, s.bench = name → ∀ file, files[s.index]? = some file →
          (fileToDate commitToDate file).Before goodDataStart = true) →
        name ∉ testKeys results) ∧
      ((∀ s ∈ tableSamples tables, ∀ file, files[s.index]? = some file →
          (fileToDate commitToDate file).Before goodDataStart = true) →
        report fl results dateToCommit = [[Field.str "SHA", Field.str "Date"]]) := by
  obtain ⟨results, hres, hgood, hspec⟩ := buildResults_spec fl commitToDate files tables hrange
  have hcell := hasCell_iff_sample fl commitToDate files tables results hspec
  have hnocol : ∀ name,
      (∀ s ∈ tableSamples tables, s.bench = name → ∀ file, files[s.index]? = some file →
        (fileToDate commitToDate file).Before goodDataStart = true) →
      name ∉ testKeys results := by
    intro name hall hmem
    obtain ⟨d, hd⟩ := hgood name ((mem_testKeys results name).mp hmem)
    obtain ⟨s, hs, hname, hacc⟩ := (hcell name d).mp hd
    obtain ⟨_, _, file, hfile, hdate, hbef⟩ :=
      (accepted_eq_some fl commitToDate files s d).mp hacc
    have := hall s hs hname file hfile
    rw [hdate, hbef] at this
    exact Bool.false_ne_true this
  refine ⟨results, hres, by simp [run, hres], ?_, ?_, ?_, hnocol, ?_⟩
  · rw [head_report]
    rfl
  · intro d hd
    rw [rowDates_report, mem_dateKeys] at hd
    obtain ⟨b, hb⟩ := hd
    obtain ⟨s, _, _, hacc⟩ := (hcell b d).mp hb
    exact ((accepted_eq_some fl commitToDate files s d).mp hacc).2.2.choose_spec.2.2
  · intro s hs file hu hr hfile hle
    rw [rowDates_report, mem_dateKeys]
    refine ⟨s.bench, (hcell s.bench _).mpr ⟨s, hs, rfl, ?_⟩⟩
    exact (accepted_eq_some fl commitToDate files s _).mpr
      ⟨hu, hr, file, hfile, rfl, (before_false_iff _ _).mpr hle⟩
  · intro hall
    have htk : testKeys results = [] := by
      rw [List.eq_nil_iff_forall_not_mem]
      intro name
      exact hnocol name (fun s hs _ file hfile => hall s hs file hfile)
    have hdk : dateKeys results = [] := by
      rw [List.eq_nil_iff_forall_not_mem]
      intro d hd
      obtain ⟨b, hb⟩ := (mem_dateKeys results d).mp hd
      have := (mem_testKeys results b).mpr (hasCell_lookup results b d hb)
      rw [htk] at this
      simp at this
    unfold report
    rw [emit_eq fl results dateToCommit _ (testKeys_nodup results), htk, hdk]
    rfl

theorem C5_cutoff_witness :
    (∀ t ∈ juneTables, ∀ row ∈ t.Rows, row.Metrics.length ≤ ["abc.txt"].length) ∧
      (∀ s ∈ tableSamples juneTables, ∀ file, ["abc.txt"][s.index]? = some file →
        (fileToDate juneCommitToDate file).Before goodDataStart = true) ∧
      run (sampleFlags false 0) juneCommitToDate juneDateToCommit ["abc.txt"] juneTables =
        some [[Field.str "SHA", Field.str "Date"]] := by
  have hall : ∀ s ∈ tableSamples juneTables, ∀ file, ["abc.txt"][s.index]? = some file →
      (fileToDate juneCommitToDate file).Before goodDataStart = true := by
    intro s hs file hfile
    simp [tableSamples, rowsSamples, rowSamples, rowSamplesFrom, juneTables] at hs
    subst hs
    simp at hfile
    subst hfile
    decide!
  obtain ⟨results, _, hrun, _, _, _, _, hempty⟩ :=
    C5_cutoff (sampleFlags false 0) juneCommitToDate juneDateToCommit ["abc.txt"] juneTables
      (by decide)
  exact ⟨by decide, hall, by rw [hrun, hempty hall]⟩

/-- C6: when no row has more metrics than there are input files, the header record is
`SHA`, `Date` and then the benchmark names of the matrix: exactly the names that have at
least one recorded cell, each once, in strictly increasing order of strings; there are as
many benchmark columns as distinct names in the matrix. -/
theorem C6_header (fl : Flags) (commitToDate : GoMap String Time)
    (dateToCommit : GoMap Time String) (files : List String) (tables : List Table)
    (hrange : ∀ t ∈ tables, ∀ row ∈ t.Rows, row.Metrics.length ≤ files.length) :
    ∃ results, buildResults fl commitToDate files tables = some results ∧
      run fl commitToDate dateToCommit files tables = some (report fl results dateToCommit) ∧
      (report fl results dateToCommit).head? =
        some ([Field.str "SHA", Field.str "Date"] ++ (testKeys results).map Field.str) ∧
      (testKeys results).Sorted (fun a b => a < b) ∧
      (testKeys results).Nodup ∧
      (∀ b, b ∈ testKeys results ↔ ∃ d, hasCell results b d = true) ∧
      (testKeys results).length = (GoMap.keys results).length := by
  obtain ⟨results, hres, hgood, _⟩ := buildResults_spec fl commitToDate files tables hrange
  refine ⟨results, hres, by simp [run, hres], ?_, testKeys_sorted results,
    testKeys_nodup results, fun b => ⟨?_, ?_⟩, ?_⟩
  · rw [head_report]
    rfl
  · intro hb
    exact hgood b ((mem_testKeys results b).mp hb)
  · rintro ⟨d, hd⟩
    exact (mem_testKeys results b).mpr (hasCell_lookup results b d hd)
  · exact (List.perm_insertionSort _ _).length_eq

theorem C6_header_witness :
    (∀ t ∈ sampleTables, ∀ row ∈ t.Rows, row.Metrics.length ≤ sampleFiles.length) ∧
      ∃ results,
        buildResults (sampleFlags false 0) sampleCommitToDate sampleFiles sampleTables =
          some results ∧
        run (sampleFlags false 0) sampleCommitToDate sampleDateToCommit sampleFiles
          sampleTables = some (report (sampleFlags false 0) results sampleDateToCommit) ∧
        (report (sampleFlags false 0) results sampleDateToCommit).head? =
          some ([Field.str "SHA", Field.str "Date"] ++ (testKeys results).map Field.str) ∧
        (testKeys results).Sorted (fun a b => a < b) ∧
        (testKeys results).Nodup ∧
        (∀ b, b ∈ testKeys results ↔ ∃ d, hasCell results b d = true) ∧
        (testKeys results).length = (GoMap.keys results).length :=
  ⟨by decide,
    C6_header (sampleFlags false 0) sampleCommitToDate sampleDateToCommit sampleFiles
      sampleTables (by decide)⟩

/-- C7 as stated fails: two revisions committed at the same instant in two zones give two
data records of which neither date is before the other, so the dates are not strictly
ascending. -/
theorem C7_counterexample :
    (run (sampleFlags false 0) tieCommitToDate tieDateToCommit sampleFiles sampleTables).map
        rowDates = some [day1, day1Zone]
      ∧ ¬ List.Pairwise (fun a b => a.Before b = true) [day1, day1Zone] := by
  decide!

/-- C7, amended: the dates of the data records are exactly the dates for which some
benchmark has a recorded cell, no `time.Time` value appears twice, and they are in
chronological order, none before one that precedes it; the order is strictly ascending when
the recorded dates have distinct instants. -/
theorem C7_dates_ascending (fl : Flags) (results : Results)
    (dateToCommit : GoMap Time String) :
    (∀ d, d ∈ rowDates (report fl results dateToCommit) ↔ ∃ b, hasCell results b d = true) ∧
      (rowDates (report fl results dateToCommit)).Nodup ∧
      (rowDates (report fl results dateToCommit)).Pairwise (fun a b => b.Before a = false) ∧
      ((∀ a ∈ rowDates (report fl results dateToCommit),
          ∀ b ∈ rowDates (report fl results dateToCommit), a.nanos = b.nanos → a = b) →
        (rowDates (report fl results dateToCommit)).Pairwise
          (fun a b => a.Before b = true)) := by
  rw [rowDates_report]
  have hsorted : (dateKeys results).Pairwise (fun a b => a.nanos ≤ b.nanos) :=
    dateKeys_sorted results
  have hnodup : (dateKeys results).Pairwise (fun a b => a ≠ b) := dateKeys_nodup results
  refine ⟨mem_dateKeys results, dateKeys_nodup results, ?_, ?_⟩
  · exact hsorted.imp (fun h => (before_false_iff _ _).mpr h)
  · intro hinj
    refine (hsorted.and hnodup).imp_of_mem ?_
    intro a b ha hb hab
    have hne : a.nanos ≠ b.nanos := fun e => hab.2 (hinj a ha b hb e)
    simp only [Time.Before, decide_eq_true_eq]
    exact lt_of_le_of_ne hab.1 hne

theorem C7_dates_ascending_witness :
    (∀ a ∈ rowDates (report (sampleFlags false 0) sampleResults sampleDateToCommit),
        ∀ b ∈ rowDates (report (sampleFlags false 0) sampleResults sampleDateToCommit),
        a.nanos = b.nanos → a = b) ∧
      (rowDates (report (sampleFlags false 0) sampleResults sampleDateToCommit)).Pairwise
        (fun a b => a.Before b = true) := by
  have hinj : ∀ a ∈ rowDates (report (sampleFlags false 0) sampleResults sampleDateToCommit),
      ∀ b ∈ rowDates (report (sampleFlags false 0) sampleResults sampleDateToCommit),
      a.nanos = b.nanos → a = b := by
    decide!
  exact ⟨hinj,
    (C7_dates_ascending (sampleFlags false 0) sampleResults sampleDateToCommit).2.2.2 hinj⟩

/-! ## The rolling window and absent cells: claims -/

/-- C1 at its failing input: with `-rolling 1` and the means 100 then 200 of
`BenchmarkFoo` at two consecutive dates, the report holds 1 and then 1, where the claim
has 1 and then 2; the window is cut as soon as its length reaches the window size, so
it holds one value less than the size (with `-rolling 2` the values are 1 and then 2). -/
theorem C1_rolling_window_one :
    run (sampleFlags false 1) sampleCommitToDate sampleDateToCommit sampleFiles sampleTables =
        some [[Field.str "SHA", Field.str "Date", Field.str "BenchmarkFoo"],
          [Field.str "abc", Field.date day1, Field.num (F64.fin 1)],
          [Field.str "def", Field.date day2, Field.num (F64.fin 1)]]
      ∧ run (sampleFlags false 2) sampleCommitToDate sampleDateToCommit sampleFiles
          sampleTables =
        some [[Field.str "SHA", Field.str "Date", Field.str "BenchmarkFoo"],
          [Field.str "abc", Field.date day1, Field.num (F64.fin 1)],
          [Field.str "def", Field.date day2, Field.num (F64.fin 2)]] := by
  decide!

/-- C9 as stated fails: `BenchmarkFoo` is measured in the first and the
third file and `BenchmarkBar` in the second and the third, so the matrix holds no cell for
`BenchmarkFoo` on the second date.  In rolling mode with window size 3 the value there is
`0 / 100 = 0`, not 1; and in relative mode, when the two measures of `BenchmarkFoo` are 0,
there is no baseline and the value there is `0 / 0 = NaN`, not 1. -/
theorem C9_counterexample :
    (buildResults (sampleFlags false 3) sampleCommitToDate3 sampleFiles3 gapTables).map
        (fun r => (testKeys r, dateKeys r, hasCell r "BenchmarkFoo" day2)) =
        some (["BenchmarkBar", "BenchmarkFoo"], [day1, day2, day3], false)
      ∧ (run (sampleFlags false 3) sampleCommitToDate3 sampleDateToCommit3 sampleFiles3
          gapTables).bind (fun out => valueAt out 1 1) = some (Field.num (F64.fin 0))
      ∧ (buildResults (sampleFlags true 0) sampleCommitToDate3 sampleFiles3 zeroTables).map
        (fun r => (testKeys r, dateKeys r, hasCell r "BenchmarkFoo" day2)) =
        some (["BenchmarkBar", "BenchmarkFoo"], [day1, day2, day3], false)
      ∧ (run (sampleFlags true 0) sampleCommitToDate3 sampleDateToCommit3 sampleFiles3
          zeroTables).bind (fun out => valueAt out 1 1) = some (Field.num F64.nan) := by
  decide!

/-- C9, amended: where the matrix holds no cell for the benchmark of column `j` at the
date of row `i`, the dates being walked in any order `dks`, the value is 1 in relative
mode when the benchmark has a baseline that is not NaN, and 1 in rolling mode with a
window size of at least 1 when `almostEqual` takes for zero every value of that benchmark
at the earlier rows (none is NaN or of magnitude above 1e-8). -/
theorem C9_absent_cell_default (fl : Flags) (results : Results)
    (dateToCommit : GoMap Time String) (dks : List Time) (i j : Nat) (d : Time) (b : String)
    (hd : dks[i]? = some d) (hb : (testKeys results)[j]? = some b)
    (habsent : hasCell results b d = false) :
    (fl.relative = true →
        ∀ v, GoMap.lookup (firstResult results (testKeys results) dks) b = some v →
          v ≠ F64.nan →
          valueAt (emit fl results dateToCommit (testKeys results) dks) i j =
            some (Field.num (F64.fin 1)))
      ∧ (fl.relative = false → 1 ≤ fl.rolling →
        (∀ i' d', i' < i → dks[i']? = some d' →
          almostEqual (raw results b d') (F64.fin 0) = true) →
        valueAt (emit fl results dateToCommit (testKeys results) dks) i j =
          some (Field.num (F64.fin 1))) := by
  constructor
  · intro hrel v hlook hvn
    obtain ⟨_, _, _, hnz⟩ := baseline_spec results _ dks b v hlook
    have hv0 : v ≠ F64.fin 0 := ne_zero_of_not_almostEqual v hnz
    rw [valueAt_relative fl results dateToCommit dks hrel i j d b hd hb v
      (getD_of_lookup _ b v _ hlook), raw_of_not_hasCell results b d habsent,
      div_zero_of_ne v hv0 hvn, almostEqual_zero_zero]
    rfl
  · intro hrel hroll hzero
    rw [valueAt_emit fl results dateToCommit _ (testKeys_nodup results) dks i j d b hd hb]
    have hw : windowAt fl results b (dks.take i) [] = [] := by
      apply windowAt_nil_of_zero
      intro d' hd'
      obtain ⟨i', hi', hget⟩ := exists_index_of_mem_take _ _ _ hd'
      exact hzero i' d' hi' hget
    have h2 : fl.rolling > 0 := by omega
    simp [cellValue, hrel, h2, hw]

theorem C9_absent_cell_default_witness :
    hasCell gapResults "BenchmarkFoo" day2 = false
      ∧ GoMap.lookup (firstResult gapResults (testKeys gapResults) (dateKeys gapResults))
          "BenchmarkFoo" = some (F64.fin 100)
      ∧ valueAt (report (sampleFlags true 0) gapResults sampleDateToCommit3) 1 1 =
          some (Field.num (F64.fin 1))
      ∧ hasCell gapResults "BenchmarkBar" day1 = false
      ∧ valueAt (report (sampleFlags false 3) gapResults sampleDateToCommit3) 0 0 =
          some (Field.num (F64.fin 1))
      ∧ (run (sampleFlags true 0) sampleCommitToDate3 sampleDateToCommit3 sampleFiles3
          gapTables).bind (fun out => valueAt out 1 1) = some (Field.num (F64.fin 1))
      ∧ (run (sampleFlags false 3) sampleCommitToDate3 sampleDateToCommit3 sampleFiles3
          gapTables).bind (fun out => valueAt out 0 0) = some (Field.num (F64.fin 1)) :=
  ⟨by decide!, by decide!,
    (C9_absent_cell_default (sampleFlags true 0) gapResults sampleDateToCommit3
      (dateKeys gapResults) 1 1 day2 "BenchmarkFoo" (by decide!) (by decide!)
      (by decide!)).1 rfl (F64.fin 100) (by decide!) (by decide),
    by decide!,
    (C9_absent_cell_default (sampleFlags false 3) gapResults sampleDateToCommit3
      (dateKeys gapResults) 0 0 day1 "BenchmarkBar" (by decide!) (by decide!)
      (by decide!)).2 rfl (by decide)
      (fun i' _ hi' _ => absurd hi' (Nat.not_lt_zero i')),
    by decide!, by decide!⟩

theorem splitLines_ne_nil (cs : List Char) : splitLines cs ≠ [] := by
  cases cs with
  | nil => simp [splitLines]
  | cons c cs =>
    unfold splitLines
    by_cases hc : c = '\n'
    · simp [hc]
    · rw [if_neg hc]
      cases splitLines cs <;> simp

theorem splitLines_join (cs : List Char) : List.intercalate ['\n'] (splitLines cs) = cs := by
  induction cs with
  | nil => simp [splitLines, List.intercalate]
  | cons c cs ih =>
    unfold splitLines
    by_cases hc : c = '\n'
    · rw [if_pos hc]
      cases hs : splitLines cs with
      | nil => exact absurd hs (splitLines_ne_nil cs)
      | cons l ls =>
        rw [hs] at ih
        simp only [List.intercalate, List.intersperse_cons_cons, List.flatten_cons,
          List.nil_append, List.singleton_append] at ih ⊢
        rw [ih, hc]
    · rw [if_neg hc]
      cases hs : splitLines cs with
      | nil => exact absurd hs (splitLines_ne_nil cs)
      | cons l ls =>
        rw [hs] at ih
        cases ls with
        | nil =>
          simp only [List.intercalate, List.intersperse_single, List.flatten_cons, List.flatten_nil,
            List.append_nil] at ih ⊢
          rw [ih]
        | cons l2 ls2 =>
          simp only [List.intercalate, List.intersperse_cons_cons, List.flatten_cons,
            List.cons_append] at ih ⊢
          rw [ih]

theorem splitLines_no_newline (cs : List Char) : ∀ l ∈ splitLines cs, '\n' ∉ l := by
  induction cs with
  | nil => simp [splitLines]
  | cons c cs ih =>
    unfold splitLines
    by_cases hc : c = '\n'
    · rw [if_pos hc]
      intro l hl
      rcases List.mem_cons.mp hl with h | h
      · simp [h]
      · exact ih l h
    · rw [if_neg hc]
      cases hs : splitLines cs with
      | nil => exact absurd hs (splitLines_ne_nil cs)
      | cons l0 ls =>
        rw [hs] at ih
        intro l hl
        rcases List.mem_cons.mp hl with h | h
        · subst h
          have h0 := ih l0 (List.mem_cons_self l0 ls)
          have hc' : ¬ '\n' = c := fun e => hc e.symm
          simp [hc', h0]
        · exact ih l (List.mem_cons_of_mem l0 h)

theorem shaAt_report (fl : Flags) (results : Results) (dateToCommit : GoMap Time String)
    (i : Nat) (d : Time) (hd : (dateKeys results)[i]? = some d) :
    shaAt (report fl results dateToCommit) i =
      some (Field.str (GoMap.getD dateToCommit d "")) := by
  unfold report
  rw [emit_eq fl results dateToCommit _ (testKeys_nodup results)]
  unfold shaAt
  have h := rowsOf_get? fl results
    (firstResult results (testKeys results) (dateKeys results)) dateToCommit
    (testKeys results) [] (dateKeys results) i d hd
  simp at h
  simp [h, rowOf]

theorem getLast?_filter_of_split {α : Type} (p : α → Bool) (pre post : List α) (e : α)
    (he : p e = true) (hpost : ∀ x ∈ post, p x = false) :
    ((pre ++ e :: post).filter p).getLast? = some e := by
  have hnil : post.filter p = [] := by
    rw [List.filter_eq_nil_iff]
    intro x hx
    simp [hpost x hx]
  rw [List.filter_append, List.filter_cons_of_pos he, hnil, List.getLast?_append]
  rfl

/-! ## The timeline loader: claims -/

/-- C11: the lines of the text are its pieces between newlines; loading fails exactly when
some non-empty line has no comma or has a text after its first comma that does not parse;
otherwise every non-empty line contributes the text before its first comma as revision and
the parse of all the text after it as timestamp, and each of the two maps sends a key to
what the last line carrying that key contributed. -/
theorem C11_timeline_loader (parse : Nat → String → Option Time) (f : String) :
    List.intercalate ['\n'] (splitLines f.data) = f.data
      ∧ (∀ l ∈ splitLines f.data, '\n' ∉ l)
      ∧ (loadTimeline parse f = none ↔
          ∃ (n : Nat) (l : List Char), (splitLines f.data)[n]? = some l ∧ l ≠ [] ∧
            (',' ∉ l ∨ ∃ a b, l = a ++ ',' :: b ∧ ',' ∉ a ∧ parse n (String.mk b) = none))
      ∧ (∀ rev tm, (rev, tm) ∈ entries parse (splitLines f.data) ↔
          ∃ (n : Nat) (l : List Char), (splitLines f.data)[n]? = some l ∧ l ≠ [] ∧
            ∃ a b, l = a ++ ',' :: b ∧ ',' ∉ a ∧ rev = String.mk a ∧
              parse n (String.mk b) = some tm)
      ∧ ∀ tl, loadTimeline parse f = some tl →
          (∀ (n : Nat) (l : List Char), (splitLines f.data)[n]? = some l → l ≠ [] →
            ∃ a b tm, l = a ++ ',' :: b ∧ ',' ∉ a ∧ parse n (String.mk b) = some tm) ∧
          (∀ rev, GoMap.lookup tl.commitToDate rev =
            (((entries parse (splitLines f.data)).filter
              (fun e => decide (e.1 = rev))).getLast?).map Prod.snd) ∧
          (∀ tm, GoMap.lookup tl.dateToCommit tm =
            (((entries parse (splitLines f.data)).filter
              (fun e => decide (e.2 = tm))).getLast?).map Prod.fst) := by
  refine ⟨splitLines_join _, splitLines_no_newline _, ?_, ?_, ?_⟩
  · unfold loadTimeline
    rw [loadLines_eq_none]
    simp only [lineEntry_eq_none, Nat.zero_add]
  · intro rev tm
    rw [mem_entries]
    simp only [lineEntry_eq_some]
  · intro tl htl
    obtain ⟨h1, h2⟩ := loadTimeline_spec parse f tl htl
    refine ⟨?_, h1, h2⟩
    intro n l hl hne
    have hnot : ¬ loadLines parse 0 (splitLines f.data) ⟨[], []⟩ = none := by
      unfold loadTimeline at htl
      rw [htl]
      simp
    rw [loadLines_eq_none] at hnot
    cases he : lineEntry parse n l with
    | none => exact absurd ⟨n, l, hl, hne, by simpa using he⟩ hnot
    | some e =>
      obtain ⟨rev, tm⟩ := e
      obtain ⟨a, b, h1', h2', _, hp⟩ := (lineEntry_eq_some parse n l rev tm).mp he
      exact ⟨a, b, tm, h1', h2', hp⟩

theorem C11_timeline_loader_witness :
    loadTimeline sampleParse sampleCommitDates =
        some ⟨[("abc", day1), ("def", day2)], [(day1, "abc"), (day2, "def")]⟩
      ∧ GoMap.lookup ([("abc", day1), ("def", day2)] : GoMap String Time) "abc" =
          (((entries sampleParse (splitLines sampleCommitDates.data)).filter
            (fun e => decide (e.1 = "abc"))).getLast?).map Prod.snd
      ∧ (loadTimeline sampleParse "abc" = none ↔
          ∃ (n : Nat) (l : List Char), (splitLines "abc".data)[n]? = some l ∧ l ≠ [] ∧
            (',' ∉ l ∨
              ∃ a b, l = a ++ ',' :: b ∧ ',' ∉ a ∧ sampleParse n (String.mk b) = none)) := by
  have hload : loadTimeline sampleParse sampleCommitDates =
      some ⟨[("abc", day1), ("def", day2)], [(day1, "abc"), (day2, "def")]⟩ := by
    decide!
  exact ⟨hload,
    ((C11_timeline_loader sampleParse sampleCommitDates).2.2.2.2 _ hload).2.1 "abc",
    (C11_timeline_loader sampleParse "abc").2.2.1⟩

/-- C12 as stated fails: the two lines `abc,Fri, 1 Jan 2021 05:30:00 +0530` and
`def,Fri, 1 Jan 2021 05:30:00 +0530` carry the same timestamp, but `time.Parse` gives the
time of each line a location of its own, so the two times are different keys of the
timestamp-to-revision map: the map keeps both revisions, and the row of the data of
`abc.txt` shows `abc` in its SHA column, not the revision `def` of the last line. -/
theorem C12_counterexample :
    entries zoneParse (splitLines dupZoneCommitDates.data) =
        [("abc", ⟨1609459200000000000, 1⟩), ("def", ⟨1609459200000000000, 2⟩)]
      ∧ (loadTimeline zoneParse dupZoneCommitDates).map
          (fun tl => (GoMap.lookup tl.dateToCommit ⟨1609459200000000000, 1⟩,
            GoMap.lookup tl.dateToCommit ⟨1609459200000000000, 2⟩)) =
          some (some "abc", some "def")
      ∧ mainRun zoneParse (sampleFlags false 0) dupZoneCommitDates ["abc.txt"] juneTables =
          some [[Field.str "SHA", Field.str "Date", Field.str "BenchmarkFoo"],
            [Field.str "abc", Field.date ⟨1609459200000000000, 1⟩,
              Field.num (F64.fin 100)]] := by
  decide!

/-- C12, amended: when every non-empty line is well formed, loading succeeds although
several lines with distinct revisions carry the same timestamp; the timestamp-to-revision
map sends a parsed time `tm` to the revision of the last line whose parsed time equals `tm`
as a `time.Time` value (the same instant and the same location), and the record of that
date in the report has that revision in its SHA column, whatever file the data of the
record came from. -/
theorem C12_duplicate_timestamps (parse : Nat → String → Option Time) (f : String)
    (hwf : ∀ (n : Nat) (l : List Char), (splitLines f.data)[n]? = some l → l ≠ [] →
      ∃ e, lineEntry parse n l = some e) :
    ∃ tl, loadTimeline parse f = some tl ∧
      ∀ (pre post : List (String × Time)) (rev : String) (tm : Time),
        entries parse (splitLines f.data) = pre ++ (rev, tm) :: post →
        (∀ e ∈ post, e.2 ≠ tm) →
        GoMap.lookup tl.dateToCommit tm = some rev ∧
          ∀ (fl : Flags) (results : Results) (i : Nat), (dateKeys results)[i]? = some tm →
            shaAt (report fl results tl.dateToCommit) i = some (Field.str rev) := by
  cases hload : loadTimeline parse f with
  | none =>
    unfold loadTimeline at hload
    obtain ⟨n, l, hl, hne, hnone⟩ := (loadLines_eq_none parse _ _ _).mp hload
    obtain ⟨e, he⟩ := hwf n l hl hne
    rw [Nat.zero_add, he] at hnone
    exact Option.noConfusion hnone
  | some tl =>
    refine ⟨tl, rfl, ?_⟩
    intro pre post rev tm hsplit hpost
    have hlook : GoMap.lookup tl.dateToCommit tm = some rev := by
      rw [(loadTimeline_spec parse f tl hload).2 tm, hsplit,
        getLast?_filter_of_split _ pre post (rev, tm) (by simp)
          (fun x hx => by simpa using hpost x hx)]
      rfl
    refine ⟨hlook, ?_⟩
    intro fl results i hi
    rw [shaAt_report fl results tl.dateToCommit i tm hi]
    simp [GoMap.getD, hlook]

theorem C12_duplicate_timestamps_witness :
    (∀ (n : Nat) (l : List Char), (splitLines dupCommitDates.data)[n]? = some l → l ≠ [] →
        ∃ e, lineEntry sampleParse n l = some e)
      ∧ entries sampleParse (splitLines dupCommitDates.data) =
          [("abc", day1)] ++ ("def", day1) :: []
      ∧ (∃ tl, loadTimeline sampleParse dupCommitDates = some tl ∧
          GoMap.lookup tl.dateToCommit day1 = some "def")
      ∧ mainRun sampleParse (sampleFlags false 0) dupCommitDates ["abc.txt"] juneTables =
          some [[Field.str "SHA", Field.str "Date", Field.str "BenchmarkFoo"],
            [Field.str "def", Field.date day1, Field.num (F64.fin 100)]] := by
  have hwf : ∀ (n : Nat) (l : List Char), (splitLines dupCommitDates.data)[n]? = some l →
      l ≠ [] → ∃ e, lineEntry sampleParse n l = some e := by
    intro n l hl hne
    have hmem : l ∈ splitLines dupCommitDates.data := List.mem_iff_getElem?.mpr ⟨n, hl⟩
    cases he : lineEntry sampleParse n l with
    | some e => exact ⟨e, rfl⟩
    | none =>
      have hall : ∀ l ∈ splitLines dupCommitDates.data,
          l ≠ [] → (lineEntry sampleParse 0 l).isSome = true := by decide!
      have h0 : lineEntry sampleParse n l = lineEntry sampleParse 0 l := rfl
      have := hall l hmem hne
      rw [← h0, he] at this
      exact Bool.noConfusion this
  have hent : entries sampleParse (splitLines dupCommitDates.data) =
      [("abc", day1)] ++ ("def", day1) :: [] := by decide!
  obtain ⟨tl, htl, h⟩ := C12_duplicate_timestamps sampleParse dupCommitDates hwf
  exact ⟨hwf, hent, ⟨tl, htl, (h [("abc", day1)] [] "def" day1 hent (by simp)).1⟩, by decide!⟩

/-! ## Lookup misses, report shape and the reverse lookup: claims -/

theorem zero_before_goodDataStart : Time.zero.Before goodDataStart = true := by
  decide

theorem accepted_none_of_miss (fl : Flags) (commitToDate : GoMap String Time)
    (files : List String) (i : Nat) (file : String) (hfile : files[i]? = some file)
    (hmiss : GoMap.lookup commitToDate (trimSuffix (filepathBase file) (filepathExt file)) =
      none)
    (s : Sample) (hs : s.index = i) : accepted fl commitToDate files s = none := by
  have hz : fileToDate commitToDate file = Time.zero := by
    simp [fileToDate, GoMap.getD, hmiss]
  unfold accepted
  rw [hs, hfile]
  simp only [hz, zero_before_goodDataStart, if_true]
  split_ifs <;> rfl

theorem lastSample_filter_index (fl : Flags) (commitToDate : GoMap String Time)
    (files : List String) (name : String) (date : Time) (samples : List Sample) (i : Nat)
    (h : ∀ s ∈ samples, s.index = i → accepted fl commitToDate files s = none) :
    lastSample fl commitToDate files name date
        (samples.filter (fun s => decide (s.index ≠ i))) =
      lastSample fl commitToDate files name date samples := by
  unfold lastSample
  rw [List.filter_filter]
  congr 1
  apply List.filter_congr
  intro s hs
  by_cases hi : s.index = i
  · simp [h s hs hi]
  · simp [hi]

/-- C13: when the revision derived from input file `i` (its base name without the
extension) is absent from the timeline, the file resolves to the zero timestamp, which is
before the cutoff; the run does not fail, and the matrix, the benchmark columns and the
date rows are those of the samples at the other indices: a sample at index `i` adds no
cell, no column and no row. -/
theorem C13_lookup_miss (fl : Flags) (commitToDate : GoMap String Time)
    (dateToCommit : GoMap Time String) (files : List String) (tables : List Table)
    (hrange : ∀ t ∈ tables, ∀ row ∈ t.Rows, row.Metrics.length ≤ files.length)
    (i : Nat) (file : String) (hfile : files[i]? = some file)
    (hmiss : GoMap.lookup commitToDate (trimSuffix (filepathBase file) (filepathExt file)) =
      none) :
    fileToDate commitToDate file = Time.zero
      ∧ Time.zero.Before goodDataStart = true
      ∧ ∃ results, buildResults fl commitToDate files tables = some results ∧
          run fl commitToDate dateToCommit files tables =
            some (report fl results dateToCommit) ∧
          (∀ name date, GoMap.lookup (GoMap.getD results name []) date =
            (lastSample fl commitToDate files name date
              ((tableSamples tables).filter (fun s => decide (s.index ≠ i)))).map
              (fun s => ⟨name, date, s.metric.Mean⟩)) ∧
          (∀ name date, hasCell results name date = true ↔
            ∃ s ∈ tableSamples tables, s.index ≠ i ∧ s.bench = name ∧
              accepted fl commitToDate files s = some date) ∧
          (∀ name, name ∈ testKeys results ↔
            ∃ s ∈ tableSamples tables, s.index ≠ i ∧ s.bench = name ∧
              ∃ date, accepted fl commitToDate files s = some date) ∧
          (∀ date, date ∈ rowDates (report fl results dateToCommit) ↔
            ∃ s ∈ tableSamples tables, s.index ≠ i ∧
              accepted fl commitToDate files s = some date) := by
  have hnone := accepted_none_of_miss fl commitToDate files i file hfile hmiss
  obtain ⟨results, hres, hgood, hspec⟩ := buildResults_spec fl commitToDate files tables hrange
  have hcell : ∀ name date, hasCell results name date = true ↔
      ∃ s ∈ tableSamples tables, s.index ≠ i ∧ s.bench = name ∧
        accepted fl commitToDate files s = some date := by
    intro name date
    rw [hasCell_iff_sample fl commitToDate files tables results hspec]
    constructor
    · rintro ⟨s, hs, hb, hacc⟩
      refine ⟨s, hs, ?_, hb, hacc⟩
      intro hi
      rw [hnone s hi] at hacc
      simp at hacc
    · rintro ⟨s, hs, _, hb, hacc⟩
      exact ⟨s, hs, hb, hacc⟩
  refine ⟨by simp [fileToDate, GoMap.getD, hmiss], zero_before_goodDataStart, results, hres,
    by simp [run, hres], ?_, hcell, ?_, ?_⟩
  · intro name date
    rw [hspec, lastSample_filter_index fl commitToDate files name date _ i
      (fun s _ hi => hnone s hi)]
  · intro name
    constructor
    · intro hmem
      obtain ⟨d, hd⟩ := hgood name ((mem_testKeys results name).mp hmem)
      obtain ⟨s, hs, hi, hb, hacc⟩ := (hcell name d).mp hd
      exact ⟨s, hs, hi, hb, d, hacc⟩
    · rintro ⟨s, hs, hi, hb, d, hacc⟩
      have hd : hasCell results name d = true := (hcell name d).mpr ⟨s, hs, hi, hb, hacc⟩
      exact (mem_testKeys results name).mpr (hasCell_lookup results name d hd)
  · intro date
    rw [rowDates_report, mem_dateKeys]
    constructor
    · rintro ⟨b, hb⟩
      obtain ⟨s, hs, hi, _, hacc⟩ := (hcell b date).mp hb
      exact ⟨s, hs, hi, hacc⟩
    · rintro ⟨s, hs, hi, hacc⟩
      exact ⟨s.bench, (hcell s.bench date).mpr ⟨s, hs, hi, rfl, hacc⟩⟩

theorem C13_lookup_miss_witness :
    (∀ t ∈ sampleTables, ∀ row ∈ t.Rows, row.Metrics.length ≤ sampleFiles.length)
      ∧ sampleFiles[1]? = some "/tmp/bench/def.txt"
      ∧ GoMap.lookup ([("abc", day1)] : GoMap String Time)
          (trimSuffix (filepathBase "/tmp/bench/def.txt") (filepathExt "/tmp/bench/def.txt")) =
          none
      ∧ fileToDate ([("abc", day1)] : GoMap String Time) "/tmp/bench/def.txt" = Time.zero
      ∧ run (sampleFlags false 0) [("abc", day1)] [(day1, "abc")] sampleFiles sampleTables =
          some [[Field.str "SHA", Field.str "Date", Field.str "BenchmarkFoo"],
            [Field.str "abc", Field.date day1, Field.num (F64.fin 100)]] :=
  ⟨by decide, by decide, by decide!,
    (C13_lookup_miss (sampleFlags false 0) [("abc", day1)] [(day1, "abc")] sampleFiles
      sampleTables (by decide) 1 "/tmp/bench/def.txt" (by decide) (by decide!)).1,
    by decide!⟩

/-- C14: the report is the header and one record per date; the record of the date of row
`i` has exactly 2 + K fields, K being the number of benchmark columns of the header: the
revision the timestamp-to-revision map gives for the date, the date, and for every
`j < K` the normalised value of the `j`-th benchmark of the header at that date. -/
theorem C14_report_shape (fl : Flags) (results : Results)
    (dateToCommit : GoMap Time String) :
    (report fl results dateToCommit).head? =
        some ([Field.str "SHA", Field.str "Date"] ++ (testKeys results).map Field.str)
      ∧ (report fl results dateToCommit).length = 1 + (dateKeys results).length
      ∧ ∀ i d, (dateKeys results)[i]? = some d →
          ∃ row, (report fl results dateToCommit)[i + 1]? = some row ∧
            row.length = 2 + (testKeys results).length ∧
            row[0]? = some (Field.str (GoMap.getD dateToCommit d "")) ∧
            row[1]? = some (Field.date d) ∧
            ∀ j b, (testKeys results)[j]? = some b →
              row[2 + j]? = some (Field.num (cellValue fl results
                (firstResult results (testKeys results) (dateKeys results)) d b
                (windowAt fl results b ((dateKeys results).take i) []))) := by
  have heq : report fl results dateToCommit =
      header (testKeys results) ::
        rowsOf fl results (firstResult results (testKeys results) (dateKeys results))
          dateToCommit (testKeys results) [] (dateKeys results) := by
    unfold report
    exact emit_eq fl results dateToCommit _ (testKeys_nodup results) _
  refine ⟨?_, ?_, ?_⟩
  · rw [heq]
    rfl
  · rw [heq, List.length_cons, rowsOf_length]
    omega
  · intro i d hd
    have h := rowsOf_get? fl results
      (firstResult results (testKeys results) (dateKeys results)) dateToCommit
      (testKeys results) [] (dateKeys results) i d hd
    simp only [List.nil_append] at h
    refine ⟨_, by rw [heq, List.getElem?_cons_succ]; exact h, ?_, ?_, ?_, ?_⟩
    · simp [rowOf]
      omega
    · simp [rowOf]
    · simp [rowOf]
    · intro j b hb
      have h2 : 2 + j = j + 2 := by omega
      rw [h2]
      simp [rowOf, hb]

theorem C14_report_shape_witness :
    (dateKeys sampleResults)[1]? = some day2
      ∧ (report (sampleFlags false 0) sampleResults sampleDateToCommit)[1 + 1]? =
          some [Field.str "def", Field.date day2, Field.num (F64.fin 200)]
      ∧ ∃ row, (report (sampleFlags false 0) sampleResults sampleDateToCommit)[1 + 1]? =
            some row ∧
          row.length = 2 + (testKeys sampleResults).length := by
  obtain ⟨row, h1, h2, _⟩ :=
    (C14_report_shape (sampleFlags false 0) sampleResults sampleDateToCommit).2.2 1 day2
      (by decide!)
  exact ⟨by decide!, by decide!, row, h1, h2⟩

/-- C17: when loading succeeds and no row has more metrics than there are input files, the
run returns a report in which the date of every record is a key of the
timestamp-to-revision map: the SHA field of the record is a revision that some line of the
timeline carries together with exactly that date. -/
theorem C17_reverse_lookup (parse : Nat → String → Option Time) (fl : Flags) (f : String)
    (files : List String) (tables : List Table) (tl : Timeline)
    (hload : loadTimeline parse f = some tl)
    (hrange : ∀ t ∈ tables, ∀ row ∈ t.Rows, row.Metrics.length ≤ files.length) :
    ∃ results, buildResults fl tl.commitToDate files tables = some results ∧
      mainRun parse fl f files tables = some (report fl results tl.dateToCommit) ∧
      ∀ i d, (dateKeys results)[i]? = some d →
        ∃ rev, GoMap.lookup tl.dateToCommit d = some rev ∧
          (rev, d) ∈ entries parse (splitLines f.data) ∧
          shaAt (report fl results tl.dateToCommit) i = some (Field.str rev) := by
  obtain ⟨results, hres, _, hspec⟩ :=
    buildResults_spec fl tl.commitToDate files tables hrange
  obtain ⟨hc2d, hd2c⟩ := loadTimeline_spec parse f tl hload
  refine ⟨results, hres, by simp [mainRun, hload, run, hres], ?_⟩
  intro i d hd
  have hmem : d ∈ dateKeys results := List.mem_iff_getElem?.mpr ⟨i, hd⟩
  obtain ⟨b, hb⟩ := (mem_dateKeys results d).mp hmem
  obtain ⟨s, _, _, hacc⟩ :=
    (hasCell_iff_sample fl tl.commitToDate files tables results hspec b d).mp hb
  obtain ⟨_, _, file, _, hdate, hbef⟩ :=
    (accepted_eq_some fl tl.commitToDate files s d).mp hacc
  -- the revision of the file is a key of `commitToDate`
  have hkey : ∃ e ∈ entries parse (splitLines f.data), e.2 = d := by
    unfold fileToDate GoMap.getD at hdate
    simp only at hdate
    rw [hc2d] at hdate
    cases hl : ((entries parse (splitLines f.data)).filter
        (fun e => decide (e.1 = trimSuffix (filepathBase file) (filepathExt file)))).getLast?
      with
    | none =>
      rw [hl] at hdate
      simp at hdate
      rw [← hdate, zero_before_goodDataStart] at hbef
      exact absurd hbef (by simp)
    | some e =>
      rw [hl] at hdate
      simp at hdate
      have := List.mem_of_mem_getLast? hl
      exact ⟨e, (List.mem_filter.mp this).1, hdate⟩
  obtain ⟨e, he, hed⟩ := hkey
  have hne : (entries parse (splitLines f.data)).filter (fun e => decide (e.2 = d)) ≠ [] := by
    intro hnil
    rw [List.filter_eq_nil_iff] at hnil
    exact hnil e he (by simpa using hed)
  cases hl : ((entries parse (splitLines f.data)).filter
      (fun e => decide (e.2 = d))).getLast? with
  | none => exact absurd (List.getLast?_eq_none_iff.mp hl) hne
  | some e' =>
    have hmem' := List.mem_filter.mp (List.mem_of_mem_getLast? hl)
    have he'd : e'.2 = d := by simpa using hmem'.2
    have hlook : GoMap.lookup tl.dateToCommit d = some e'.1 := by
      rw [hd2c d, hl]
      rfl
    refine ⟨e'.1, hlook, ?_, ?_⟩
    · rw [← he'd]
      exact hmem'.1
    · rw [shaAt_report fl results tl.dateToCommit i d hd]
      simp [GoMap.getD, hlook]

theorem C17_reverse_lookup_witness :
    loadTimeline sampleParse sampleCommitDates =
        some ⟨[("abc", day1), ("def", day2)], [(day1, "abc"), (day2, "def")]⟩
      ∧ (∀ t ∈ sampleTables, ∀ row ∈ t.Rows, row.Metrics.length ≤ sampleFiles.length)
      ∧ (∃ results,
          buildResults (sampleFlags false 0) [("abc", day1), ("def", day2)] sampleFiles
            sampleTables = some results ∧
          ∀ i d, (dateKeys results)[i]? = some d →
            ∃ rev, GoMap.lookup ([(day1, "abc"), (day2, "def")] : GoMap Time String) d =
                some rev ∧
              (rev, d) ∈ entries sampleParse (splitLines sampleCommitDates.data) ∧
              shaAt (report (sampleFlags false 0) results [(day1, "abc"), (day2, "def")]) i =
                some (Field.str rev))
      ∧ mainRun sampleParse (sampleFlags false 0) sampleCommitDates sampleFiles sampleTables =
          some [[Field.str "SHA", Field.str "Date", Field.str "BenchmarkFoo"],
            [Field.str "abc", Field.date day1, Field.num (F64.fin 100)],
            [Field.str "def", Field.date day2, Field.num (F64.fin 200)]] := by
  have hload : loadTimeline sampleParse sampleCommitDates =
      some ⟨[("abc", day1), ("def", day2)], [(day1, "abc"), (day2, "def")]⟩ := by
    decide!
  obtain ⟨results, hres, _, h⟩ :=
    C17_reverse_lookup sampleParse (sampleFlags false 0) sampleCommitDates sampleFiles
      sampleTables _ hload (by decide)
  exact ⟨hload, by decide, ⟨results, hres, h⟩, by decide!⟩

/-! ## Baselines and windows: further claims -/

theorem mem_take_of_index {α : Type} (l : List α) (i i' : Nat) (a : α) (hi : i' < i)
    (h : l[i']? = some a) : a ∈ l.take i := by
  rw [List.mem_iff_getElem?]
  exact ⟨i', by rw [List.getElem?_take, if_pos hi]; exact h⟩

theorem index_lt_of_before (results : Results) (dks : List Time)
    (hwalk : IsDateWalk results dks) (i i0 : Nat) (d d0 : Time) (hd : dks[i]? = some d)
    (hd0 : dks[i0]? = some d0) (hbefore : d.Before d0 = true) : i < i0 := by
  by_contra hge
  rcases Nat.lt_or_eq_of_le (not_lt.mp hge) with hlt | heq
  · have hm := mem_take_of_index dks i i0 d0 hlt hd0
    have hnb := (not_before_of_mem_take results dks hwalk i d hd d0 hm).2
    rw [hbefore] at hnb
    exact Bool.noConfusion hnb
  · rw [heq, hd] at hd0
    have hdd : d = d0 := by simpa using hd0
    rw [hdd] at hbefore
    simp [Time.Before] at hbefore

/-- C15 as stated fails: `BenchmarkFoo` is `2 ^ -27` ns/op (about 7.45e-9, which
`almostEqual` takes for zero) in the first file and `2 ^ -10` ns/op in the second, so the
baseline is `2 ^ -10`, found on the second date.  On the first date, strictly before the
baseline date, the recorded value is treated as zero, yet the output is the quotient
`2 ^ -27 / 2 ^ -10 = 2 ^ -17` (about 7.6e-6), not 1: the test against 1e-8 is made on the
quotient, not on the recorded value. -/
theorem C15_counterexample :
    almostEqual (F64.fin (1 / 134217728)) (F64.fin 0) = true
      ∧ almostEqual (F64.fin (1 / 1024)) (F64.fin 0) = false
      ∧ day1.Before day2 = true
      ∧ run (sampleFlags true 0) sampleCommitToDate sampleDateToCommit sampleFiles tinyTables =
          some [[Field.str "SHA", Field.str "Date", Field.str "BenchmarkFoo"],
            [Field.str "abc", Field.date day1, Field.num (F64.fin (1 / 131072))],
            [Field.str "def", Field.date day2, Field.num (F64.fin 1)]] := by
  decide!

/-- C15, amended: in relative mode, in whatever admissible order `dks` the dates are
walked, for a benchmark whose baseline is found at the date `d0` (the first row whose value
`almostEqual` does not take for zero), at every date `d` strictly before `d0` the value of
the benchmark is absent or taken for zero; the output there is 1 when the cell is absent
and the baseline is not NaN, and otherwise it is 1 exactly when `almostEqual` takes the
float64 quotient `raw / baseline` for zero, and that quotient when it does not. -/
theorem C15_before_baseline (fl : Flags) (results : Results)
    (dateToCommit : GoMap Time String) (dks : List Time) (hwalk : IsDateWalk results dks)
    (hrel : fl.relative = true)
    (j : Nat) (b : String) (hb : (testKeys results)[j]? = some b)
    (i0 : Nat) (d0 : Time) (hd0 : dks[i0]? = some d0)
    (hnz : almostEqual (raw results b d0) (F64.fin 0) = false)
    (hfirst : ∀ i' d', i' < i0 → dks[i']? = some d' →
      almostEqual (raw results b d') (F64.fin 0) = true)
    (i : Nat) (d : Time) (hd : dks[i]? = some d) (hbefore : d.Before d0 = true) :
    almostEqual (raw results b d) (F64.fin 0) = true
      ∧ (hasCell results b d = false → raw results b d0 ≠ F64.nan →
        valueAt (emit fl results dateToCommit (testKeys results) dks) i j =
          some (Field.num (F64.fin 1)))
      ∧ (almostEqual (F64.div (raw results b d) (raw results b d0)) (F64.fin 0) = true →
        valueAt (emit fl results dateToCommit (testKeys results) dks) i j =
          some (Field.num (F64.fin 1)))
      ∧ (almostEqual (F64.div (raw results b d) (raw results b d0)) (F64.fin 0) = false →
        valueAt (emit fl results dateToCommit (testKeys results) dks) i j =
          some (Field.num (F64.div (raw results b d) (raw results b d0)))) := by
  have hmem : b ∈ testKeys results := List.mem_iff_getElem?.mpr ⟨j, hb⟩
  have hbase : GoMap.lookup (firstResult results (testKeys results) dks) b =
      some (raw results b d0) :=
    lookup_firstResult_first results _ b hmem dks [] rfl i0 d0 hd0 hnz hfirst
  have hval := valueAt_relative fl results dateToCommit dks hrel i j d b hd hb _
    (getD_of_lookup _ b _ (F64.fin 0) hbase)
  have hi : i < i0 := index_lt_of_before results dks hwalk i i0 d d0 hd hd0 hbefore
  have hone : almostEqual (F64.div (raw results b d) (raw results b d0)) (F64.fin 0) = true →
      valueAt (emit fl results dateToCommit (testKeys results) dks) i j =
        some (Field.num (F64.fin 1)) := by
    intro h
    rw [hval, h]
    rfl
  refine ⟨hfirst i d hi hd, ?_, hone, ?_⟩
  · intro habs hnan
    apply hone
    rw [raw_of_not_hasCell results b d habs,
      div_zero_of_ne _ (ne_zero_of_not_almostEqual _ hnz) hnan]
    exact almostEqual_zero_zero
  · intro h
    rw [hval, h]
    rfl

theorem C15_before_baseline_witness :
    IsDateWalk gapResults (dateKeys gapResults)
      ∧ (sampleFlags true 0).relative = true
      ∧ (dateKeys gapResults)[1]? = some day2
      ∧ almostEqual (raw gapResults "BenchmarkBar" day2) (F64.fin 0) = false
      ∧ day1.Before day2 = true
      ∧ hasCell gapResults "BenchmarkBar" day1 = false
      ∧ valueAt (report (sampleFlags true 0) gapResults sampleDateToCommit3) 0 0 =
          some (Field.num (F64.fin 1)) := by
  have hfirst : ∀ i' d', i' < 1 → (dateKeys gapResults)[i']? = some d' →
      almostEqual (raw gapResults "BenchmarkBar" d') (F64.fin 0) = true := by
    intro i' d' hi' hd'
    have h0 : i' = 0 := by omega
    subst h0
    have hd1 : (dateKeys gapResults)[0]? = some day1 := by decide!
    rw [hd1] at hd'
    have : d' = day1 := by simpa using hd'.symm
    subst this
    decide!
  exact ⟨isDateWalk_dateKeys gapResults, rfl, by decide!, by decide!, by decide, by decide!,
    (C15_before_baseline (sampleFlags true 0) gapResults sampleDateToCommit3
      (dateKeys gapResults) (isDateWalk_dateKeys gapResults) rfl 0 "BenchmarkBar" (by decide!)
      1 day2 (by decide!) (by decide!) hfirst 0 day1 (by decide!) (by decide)).2.1
      (by decide!) (by decide!)⟩

theorem windowStep_length (fl : Flags) (w : List F64) (v : F64)
    (h : ((w.length : Nat) : Int) ≤ fl.rolling - 1) :
    (((windowStep fl w v).length : Nat) : Int) ≤ fl.rolling - 1 := by
  unfold windowStep
  split_ifs with h1 h2
  · simp only [List.length_drop, List.length_append, List.length_singleton] at h2 ⊢
    omega
  · simp only [List.length_append, List.length_singleton] at h2 ⊢
    push_cast
    omega
  · exact h

theorem windowAt_length (fl : Flags) (results : Results) (b : String) (pre : List Time)
    (w0 : List F64) (h : ((w0.length : Nat) : Int) ≤ fl.rolling - 1) :
    (((windowAt fl results b pre w0).length : Nat) : Int) ≤ fl.rolling - 1 := by
  unfold windowAt
  induction pre generalizing w0 with
  | nil => exact h
  | cons d ds ih =>
    rw [List.foldl_cons]
    exact ih _ (windowStep_length fl w0 _ h)

theorem doRows_fst (fl : Flags) (results : Results) (fr : GoMap String F64)
    (dateToCommit : GoMap Time String) (tks : List String) (htks : tks.Nodup)
    (dks : List Time) (rr : Rolling) (out : List (List Field)) (b : String) :
    GoMap.getD (doRows fl results fr dateToCommit tks dks (rr, out)).1 b [] =
      if b ∈ tks then windowAt fl results b dks (GoMap.getD rr b []) else GoMap.getD rr b [] := by
  induction dks generalizing rr out with
  | nil => simp [doRows, windowAt]
  | cons d ds ih =>
    show GoMap.getD (doRows fl results fr dateToCommit tks ds
        ((doRow fl results fr dateToCommit tks rr d).1,
          out ++ [(doRow fl results fr dateToCommit tks rr d).2])).1 b [] = _
    rw [ih, doRow_fst fl results fr dateToCommit tks htks]
    by_cases hb : b ∈ tks
    · simp [hb, windowAt]
    · simp [hb]

/-- C16: in rolling mode with a window size N of at least 1, `cell` keeps every window at
no more than N - 1 values, so after the rows of any number of dates each window holds at
most N - 1 values; with N = 1 every value of the report is 1. -/
theorem C16_window_bound (fl : Flags) (results : Results)
    (dateToCommit : GoMap Time String) (hrel : fl.relative = false)
    (hroll : 1 ≤ fl.rolling) :
    (∀ (fr : GoMap String F64) (date : Time) (test : String) (rr : Rolling),
        (∀ b, (((GoMap.getD rr b []).length : Nat) : Int) ≤ fl.rolling - 1) →
        ∀ b, (((GoMap.getD (cell fl results fr date test rr).2 b []).length : Nat) : Int) ≤
          fl.rolling - 1)
      ∧ (∀ k b,
          (((GoMap.getD
              (doRows fl results (firstResult results (testKeys results) (dateKeys results))
                dateToCommit (testKeys results) ((dateKeys results).take k)
                ([], [header (testKeys results)])).1 b []).length : Nat) : Int) ≤
            fl.rolling - 1)
      ∧ (fl.rolling = 1 → ∀ i j d b, (dateKeys results)[i]? = some d →
          (testKeys results)[j]? = some b →
          valueAt (report fl results dateToCommit) i j = some (Field.num (F64.fin 1))) := by
  have hnil : (((([] : List F64).length : Nat) : Int)) ≤ fl.rolling - 1 := by
    simp only [List.length_nil, Nat.cast_zero]
    omega
  refine ⟨?_, ?_, ?_⟩
  · intro fr date test rr hrr b
    rw [cell_snd]
    split_ifs
    · exact windowStep_length fl _ _ (hrr test)
    · exact hrr b
  · intro k b
    rw [doRows_fst fl results _ dateToCommit _ (testKeys_nodup results)]
    have hg : GoMap.getD ([] : Rolling) b [] = [] := by simp [GoMap.getD, GoMap.lookup]
    rw [hg]
    split_ifs
    · exact windowAt_length fl results b _ [] hnil
    · exact hnil
  · intro h1 i j d b hd hb
    rw [valueAt_report fl results dateToCommit i j d b hd hb]
    have hlen := windowAt_length fl results b ((dateKeys results).take i) [] hnil
    have hw : windowAt fl results b ((dateKeys results).take i) [] = [] := by
      apply List.eq_nil_of_length_eq_zero
      omega
    have h2 : fl.rolling > 0 := by omega
    simp [cellValue, hrel, h2, hw]

theorem C16_window_bound_witness :
    (sampleFlags false 1).relative = false ∧ 1 ≤ (sampleFlags false 1).rolling
      ∧ valueAt (report (sampleFlags false 1) sampleResults sampleDateToCommit) 1 0 =
          some (Field.num (F64.fin 1)) :=
  ⟨rfl, by decide,
    (C16_window_bound (sampleFlags false 1) sampleResults sampleDateToCommit rfl
      (by decide)).2.2 rfl 1 0 day2 "BenchmarkFoo" (by decide!) (by decide!)⟩

theorem mem_walk_of_nonZero (results : Results) (dks : List Time)
    (hwalk : IsDateWalk results dks) (b : String) (d : Time)
    (h : nonZero results b d = true) : d ∈ dks :=
  (mem_walk results dks hwalk d).mpr ⟨b, hasCell_of_nonZero results b d h⟩

/-- C19 as stated fails: the only recorded value of `BenchmarkFoo` is NaN, which has no
magnitude above 1e-8 (every comparison with NaN is false), so the claim has no baseline
for the benchmark; the code keeps NaN as the baseline (`almostEqual(NaN, 0)` is false),
the baseline does not have a magnitude above 1e-8, and the cell is divided by NaN. -/
theorem C19_counterexample :
    (buildResults (sampleFlags true 0) sampleCommitToDate ["/tmp/bench/abc.txt"]
        nanOnlyTables).map
        (fun r => (testKeys r, dateKeys r,
          (GoMap.getD r "BenchmarkFoo" []).map (fun c => (c.1, c.2.Nanoseconds)),
          GoMap.lookup (firstResult r (testKeys r) (dateKeys r)) "BenchmarkFoo")) =
        some (["BenchmarkFoo"], [day1], [(day1, F64.nan)], some F64.nan)
      ∧ run (sampleFlags true 0) sampleCommitToDate sampleDateToCommit ["/tmp/bench/abc.txt"]
          nanOnlyTables =
          some [[Field.str "SHA", Field.str "Date", Field.str "BenchmarkFoo"],
            [Field.str "abc", Field.date day1, Field.num F64.nan]] := by
  decide!

/-- C19, amended: for a benchmark of the header, in whatever admissible order `dks` the
dates are walked, the baseline is defined exactly when `almostEqual` does not take one of
its recorded values for zero (a value of magnitude above 1e-8, or NaN); a defined baseline
is such a recorded value and is not 0, so the division by it is no division by zero;
without baseline `almostEqual` takes every recorded value for zero and in relative mode the
cells are divided by the missing-key default 0. -/
theorem C19_relative_divisor (fl : Flags) (results : Results)
    (dateToCommit : GoMap Time String) (dks : List Time) (hwalk : IsDateWalk results dks)
    (j : Nat) (b : String) (hb : (testKeys results)[j]? = some b) :
    ((GoMap.lookup (firstResult results (testKeys results) dks) b).isSome = true ↔
        ∃ d r, GoMap.lookup (GoMap.getD results b []) d = some r ∧
          almostEqual r.Nanoseconds (F64.fin 0) = false)
      ∧ (∀ v, GoMap.lookup (firstResult results (testKeys results) dks) b = some v →
          almostEqual v (F64.fin 0) = false ∧ v ≠ F64.fin 0 ∧
            ∃ d r, GoMap.lookup (GoMap.getD results b []) d = some r ∧ r.Nanoseconds = v)
      ∧ (GoMap.lookup (firstResult results (testKeys results) dks) b = none →
          (∀ d r, GoMap.lookup (GoMap.getD results b []) d = some r →
            almostEqual r.Nanoseconds (F64.fin 0) = true) ∧
          GoMap.getD (firstResult results (testKeys results) dks) b (F64.fin 0) = F64.fin 0 ∧
          (fl.relative = true → ∀ i d, dks[i]? = some d →
            valueAt (emit fl results dateToCommit (testKeys results) dks) i j =
              some (Field.num (F64.div (raw results b d) (F64.fin 0))))) := by
  have hmem : b ∈ testKeys results := List.mem_iff_getElem?.mpr ⟨j, hb⟩
  have hfind : GoMap.lookup (firstResult results (testKeys results) dks) b =
      (dks.find? (nonZero results b)).map (raw results b) := by
    unfold firstResult
    exact lookup_firstResult_find results _ b hmem _ [] rfl
  have hiff : (GoMap.lookup (firstResult results (testKeys results) dks) b).isSome = true ↔
      ∃ d r, GoMap.lookup (GoMap.getD results b []) d = some r ∧
        almostEqual r.Nanoseconds (F64.fin 0) = false := by
    rw [hfind, Option.isSome_map', List.find?_isSome]
    constructor
    · rintro ⟨d, _, hnz⟩
      have hc := hasCell_of_nonZero results b d hnz
      unfold hasCell at hc
      obtain ⟨r, hr⟩ := Option.isSome_iff_exists.mp hc
      refine ⟨d, r, hr, ?_⟩
      rw [← raw_of_lookup results b d r hr]
      exact (nonZero_iff results b d).mp hnz
    · rintro ⟨d, r, hr, hlt⟩
      have hnz : nonZero results b d = true := by
        rw [nonZero_iff, raw_of_lookup results b d r hr]
        exact hlt
      exact ⟨d, mem_walk_of_nonZero results dks hwalk b d hnz, hnz⟩
  refine ⟨hiff, ?_, ?_⟩
  · intro v hv
    obtain ⟨d, _, hraw, hnz⟩ := baseline_spec results _ dks b v hv
    refine ⟨hnz, ne_zero_of_not_almostEqual v hnz, ?_⟩
    have hc : hasCell results b d = true :=
      hasCell_of_nonZero results b d ((nonZero_iff results b d).mpr (by rw [hraw]; exact hnz))
    unfold hasCell at hc
    obtain ⟨r, hr⟩ := Option.isSome_iff_exists.mp hc
    exact ⟨d, r, hr, by rw [← raw_of_lookup results b d r hr, hraw]⟩
  · intro hnone
    have hg : GoMap.getD (firstResult results (testKeys results) dks) b (F64.fin 0) =
        F64.fin 0 := by
      simp [GoMap.getD, hnone]
    have hzero : ∀ d r, GoMap.lookup (GoMap.getD results b []) d = some r →
        almostEqual r.Nanoseconds (F64.fin 0) = true := by
      intro d r hr
      cases hae : almostEqual r.Nanoseconds (F64.fin 0) with
      | true => rfl
      | false =>
        have : (GoMap.lookup (firstResult results (testKeys results) dks) b).isSome = true :=
          hiff.mpr ⟨d, r, hr, hae⟩
        rw [hnone] at this
        exact Bool.noConfusion this
    refine ⟨hzero, hg, ?_⟩
    intro hrel i d hd
    have hfin : ∃ q, raw results b d = F64.fin q := by
      cases hl : GoMap.lookup (GoMap.getD results b []) d with
      | none =>
        have hc : hasCell results b d = false := by simp [hasCell, hl]
        exact ⟨0, raw_of_not_hasCell results b d hc⟩
      | some r =>
        rw [raw_of_lookup results b d r hl]
        exact finite_of_almostEqual _ (hzero d r hl)
    rw [valueAt_relative fl results dateToCommit dks hrel i j d b hd hb _ hg,
      almostEqual_div_zero _ hfin]
    rfl

theorem C19_relative_divisor_witness :
    IsDateWalk sampleResults (dateKeys sampleResults)
      ∧ (testKeys sampleResults)[0]? = some "BenchmarkFoo"
      ∧ ((GoMap.lookup (firstResult sampleResults (testKeys sampleResults)
            (dateKeys sampleResults)) "BenchmarkFoo").isSome = true ↔
          ∃ d r, GoMap.lookup (GoMap.getD sampleResults "BenchmarkFoo" []) d = some r ∧
            almostEqual r.Nanoseconds (F64.fin 0) = false)
      ∧ GoMap.lookup (firstResult sampleResults (testKeys sampleResults)
          (dateKeys sampleResults)) "BenchmarkFoo" = some (F64.fin 100) :=
  ⟨isDateWalk_dateKeys sampleResults, by decide!,
    (C19_relative_divisor (sampleFlags true 0) sampleResults sampleDateToCommit
      (dateKeys sampleResults) (isDateWalk_dateKeys sampleResults) 0
      "BenchmarkFoo" (by decide!)).1,
    by decide!⟩

/-! ## Independence of the benchmarks -/

theorem walk_strict (results : Results) (dks : List Time) (hwalk : IsDateWalk results dks)
    (h : ∀ x ∈ dks, ∀ y ∈ dks, x.nanos = y.nanos → x = y) :
    dks.Pairwise (fun a b => a.nanos < b.nanos) := by
  have hsorted : dks.Pairwise (fun a b => a.nanos ≤ b.nanos) :=
    hwalk.2.imp (fun {a b} hab => (before_false_iff b a).mp hab)
  have hnodup : dks.Pairwise (fun a b => a ≠ b) := walk_nodup results dks hwalk
  refine (hsorted.and hnodup).imp_of_mem ?_
  intro a b ha hb hab
  exact lt_of_le_of_ne hab.1 (fun e => hab.2 (h a ha b hb e))

theorem mem_take_iff_lt (l : List Time) (hs : l.Pairwise (fun a b => a.nanos < b.nanos))
    (i : Nat) (d : Time) (hd : l[i]? = some d) (x : Time) :
    x ∈ l.take i ↔ x ∈ l ∧ x.nanos < d.nanos := by
  obtain ⟨hi, hget⟩ := List.getElem?_eq_some_iff.mp hd
  have hdrop : l.drop i = d :: l.drop (i + 1) := by
    rw [List.drop_eq_getElem_cons hi, hget]
  constructor
  · intro hx
    refine ⟨List.mem_of_mem_take hx, ?_⟩
    have hdmem : d ∈ l.drop i := by
      rw [hdrop]
      exact List.mem_cons_self _ _
    exact List.Sorted.rel_of_mem_take_of_mem_drop hs hx hdmem
  · rintro ⟨hx, hlt⟩
    rw [← List.take_append_drop i l, List.mem_append] at hx
    rcases hx with hx | hx
    · exact hx
    · exfalso
      rw [hdrop] at hx
      rcases List.mem_cons.mp hx with hx | hx
      · rw [hx] at hlt
        exact lt_irrefl _ hlt
      · have hp : (d :: l.drop (i + 1)).Pairwise (fun a b => a.nanos < b.nanos) := by
          rw [← hdrop]
          exact hs.sublist (List.drop_sublist i l)
        have := List.rel_of_pairwise_cons hp hx
        exact lt_asymm hlt this

theorem eq_of_strict_sorted (l1 l2 : List Time)
    (h1 : l1.Pairwise (fun a b => a.nanos < b.nanos))
    (h2 : l2.Pairwise (fun a b => a.nanos < b.nanos))
    (hmem : ∀ x, x ∈ l1 ↔ x ∈ l2) : l1 = l2 := by
  haveI : IsAntisymm Time (fun a b => a.nanos < b.nanos) :=
    ⟨fun _ _ hab hba => absurd hab (lt_asymm hba)⟩
  have hne : ∀ a b : Time, a.nanos < b.nanos → a ≠ b := by
    intro a b hab e
    rw [e] at hab
    exact lt_irrefl _ hab
  have n1 : l1.Nodup := h1.imp (fun {a b} h => hne a b h)
  have n2 : l2.Nodup := h2.imp (fun {a b} h => hne a b h)
  exact List.eq_of_perm_of_sorted ((List.perm_ext_iff_of_nodup n1 n2).mpr hmem) h1 h2

theorem windowAt_filter (fl : Flags) (results : Results) (b : String) (pre : List Time)
    (w0 : List F64) :
    windowAt fl results b pre w0 =
      windowAt fl results b (pre.filter (nonZero results b)) w0 := by
  unfold windowAt
  induction pre generalizing w0 with
  | nil => rfl
  | cons d ds ih =>
    by_cases hnz : nonZero results b d = true
    · rw [List.filter_cons_of_pos hnz, List.foldl_cons, List.foldl_cons]
      exact ih _
    · rw [List.filter_cons_of_neg hnz, List.foldl_cons]
      have hz : almostEqual ((raw results b d)) (F64.fin 0) = true := by
        simpa [nonZero] using hnz
      rw [windowStep_of_zero fl w0 _ hz]
      exact ih _

theorem windowAt_congr (fl : Flags) (r1 r2 : Results) (b : String)
    (hraw : ∀ d, raw r1 b d = raw r2 b d) (pre : List Time) (w0 : List F64) :
    windowAt fl r1 b pre w0 = windowAt fl r2 b pre w0 := by
  unfold windowAt
  have : (fun w d => windowStep fl w (raw r1 b d)) = (fun w d => windowStep fl w (raw r2 b d)) := by
    funext w d
    rw [hraw]
  rw [this]

theorem cellValue_congr (fl : Flags) (r1 r2 : Results) (fr1 fr2 : GoMap String F64) (d : Time)
    (b : String) (w : List F64) (hraw : raw r1 b d = raw r2 b d)
    (hfr : GoMap.getD fr1 b (F64.fin 0) = GoMap.getD fr2 b (F64.fin 0)) :
    cellValue fl r1 fr1 d b w = cellValue fl r2 fr2 d b w := by
  unfold cellValue
  rw [hraw, hfr]

/-- C18 as stated fails: three revisions, the first two committed at the same instant
in two zones (`day1` and `day1Zone`), the third on `day2`; `BenchmarkFoo` is measured at
100 and 200 ns/op in the files of the first two and `BenchmarkBar` in the third, at 5
ns/op in one input and at 7 in the other.  The cells of `BenchmarkFoo` are the same in the
two matrices and the two orders of `day1` and `day1Zone` are admissible walks of each; in
rolling mode with window size 3 the value of `BenchmarkFoo` on `day1` is 1 in the walk that
starts at `day1` and 1/2 in the walk that starts at `day1Zone`: it does not depend on the
cells of `BenchmarkFoo` alone. -/
theorem C18_counterexample :
    (buildResults (sampleFlags false 3) tieCommitToDate3 sampleFiles3 tieTablesFive).map
        (fun r =>
          ((GoMap.getD r "BenchmarkFoo" []).map (fun c => (c.1, c.2.Nanoseconds)),
            decide (IsDateWalk r [day1, day1Zone, day2]),
            emit (sampleFlags false 3) r tieDateToCommit3 (testKeys r)
              [day1, day1Zone, day2])) =
        some ([(day1Zone, F64.fin 200), (day1, F64.fin 100)], true,
          [[Field.str "SHA", Field.str "Date", Field.str "BenchmarkBar",
              Field.str "BenchmarkFoo"],
            [Field.str "abc", Field.date day1, Field.num (F64.fin 1), Field.num (F64.fin 1)],
            [Field.str "def", Field.date day1Zone, Field.num (F64.fin 1),
              Field.num (F64.fin 2)],
            [Field.str "ghi", Field.date day2, Field.num (F64.fin 1),
              Field.num (F64.fin 0)]])
      ∧ (buildResults (sampleFlags false 3) tieCommitToDate3 sampleFiles3 tieTablesSeven).map
        (fun r =>
          ((GoMap.getD r "BenchmarkFoo" []).map (fun c => (c.1, c.2.Nanoseconds)),
            decide (IsDateWalk r [day1Zone, day1, day2]),
            emit (sampleFlags false 3) r tieDateToCommit3 (testKeys r)
              [day1Zone, day1, day2])) =
        some ([(day1Zone, F64.fin 200), (day1, F64.fin 100)], true,
          [[Field.str "SHA", Field.str "Date", Field.str "BenchmarkBar",
              Field.str "BenchmarkFoo"],
            [Field.str "def", Field.date day1Zone, Field.num (F64.fin 1),
              Field.num (F64.fin 1)],
            [Field.str "abc", Field.date day1, Field.num (F64.fin 1),
              Field.num (F64.fin (1 / 2))],
            [Field.str "ghi", Field.date day2, Field.num (F64.fin 1),
              Field.num (F64.fin 0)]]) := by
  decide!

/-- C18, amended: in every mode, when in each of two matrices the recorded dates have
pairwise distinct instants and the benchmark `b` has the same cells in both, then in
whatever admissible orders the dates of the two matrices are walked, the value written
for `b` at a date that is a row of both reports is the same in both, whatever the cells of
the other benchmarks and the rows they add or remove. -/
theorem C18_no_interference (fl : Flags) (r1 r2 : Results)
    (dateToCommit1 dateToCommit2 : GoMap Time String) (b : String)
    (dks1 dks2 : List Time) (hwalk1 : IsDateWalk r1 dks1) (hwalk2 : IsDateWalk r2 dks2)
    (hsame : ∀ d, GoMap.lookup (GoMap.getD r1 b []) d = GoMap.lookup (GoMap.getD r2 b []) d)
    (h1 : ∀ x ∈ dks1, ∀ y ∈ dks1, x.nanos = y.nanos → x = y)
    (h2 : ∀ x ∈ dks2, ∀ y ∈ dks2, x.nanos = y.nanos → x = y)
    (i1 i2 j1 j2 : Nat) (d : Time)
    (hd1 : dks1[i1]? = some d) (hd2 : dks2[i2]? = some d)
    (hb1 : (testKeys r1)[j1]? = some b) (hb2 : (testKeys r2)[j2]? = some b) :
    valueAt (emit fl r1 dateToCommit1 (testKeys r1) dks1) i1 j1 =
      valueAt (emit fl r2 dateToCommit2 (testKeys r2) dks2) i2 j2 := by
  have hraw : ∀ x, raw r1 b x = raw r2 b x := by
    intro x
    show ((GoMap.lookup (GoMap.getD r1 b []) x).getD Result.zero).Nanoseconds =
      ((GoMap.lookup (GoMap.getD r2 b []) x).getD Result.zero).Nanoseconds
    rw [hsame]
  have hnz : ∀ x, nonZero r1 b x = nonZero r2 b x := by
    intro x
    unfold nonZero
    rw [hraw]
  have hs1 := walk_strict r1 dks1 hwalk1 h1
  have hs2 := walk_strict r2 dks2 hwalk2 h2
  have hm1 : b ∈ testKeys r1 := List.mem_iff_getElem?.mpr ⟨j1, hb1⟩
  have hm2 : b ∈ testKeys r2 := List.mem_iff_getElem?.mpr ⟨j2, hb2⟩
  have hpre : (dks1.take i1).filter (nonZero r1 b) = (dks2.take i2).filter (nonZero r2 b) := by
    apply eq_of_strict_sorted
    · exact (hs1.sublist (List.take_sublist _ _)).filter _
    · exact (hs2.sublist (List.take_sublist _ _)).filter _
    · intro x
      rw [List.mem_filter, List.mem_filter, mem_take_iff_lt _ hs1 i1 d hd1,
        mem_take_iff_lt _ hs2 i2 d hd2, hnz x]
      constructor
      · rintro ⟨⟨_, hlt⟩, hx⟩
        exact ⟨⟨mem_walk_of_nonZero r2 dks2 hwalk2 b x hx, hlt⟩, hx⟩
      · rintro ⟨⟨_, hlt⟩, hx⟩
        exact ⟨⟨mem_walk_of_nonZero r1 dks1 hwalk1 b x (by rw [hnz x]; exact hx), hlt⟩, hx⟩
  have hall : dks1.filter (nonZero r1 b) = dks2.filter (nonZero r2 b) := by
    apply eq_of_strict_sorted
    · exact hs1.filter _
    · exact hs2.filter _
    · intro x
      rw [List.mem_filter, List.mem_filter, hnz x]
      constructor
      · rintro ⟨_, hx⟩
        exact ⟨mem_walk_of_nonZero r2 dks2 hwalk2 b x hx, hx⟩
      · rintro ⟨_, hx⟩
        exact ⟨mem_walk_of_nonZero r1 dks1 hwalk1 b x (by rw [hnz x]; exact hx), hx⟩
  have hw : windowAt fl r1 b (dks1.take i1) [] = windowAt fl r2 b (dks2.take i2) [] := by
    rw [windowAt_filter fl r1, windowAt_filter fl r2, hpre]
    exact windowAt_congr fl r1 r2 b hraw _ _
  have hfr : GoMap.getD (firstResult r1 (testKeys r1) dks1) b (F64.fin 0) =
      GoMap.getD (firstResult r2 (testKeys r2) dks2) b (F64.fin 0) := by
    have e1 : GoMap.lookup (firstResult r1 (testKeys r1) dks1) b =
        (dks1.find? (nonZero r1 b)).map (raw r1 b) := by
      unfold firstResult
      exact lookup_firstResult_find r1 _ b hm1 _ [] rfl
    have e2 : GoMap.lookup (firstResult r2 (testKeys r2) dks2) b =
        (dks2.find? (nonZero r2 b)).map (raw r2 b) := by
      unfold firstResult
      exact lookup_firstResult_find r2 _ b hm2 _ [] rfl
    have hrawf : raw r1 b = raw r2 b := funext hraw
    unfold GoMap.getD
    rw [e1, e2, find?_eq_head?_filter, find?_eq_head?_filter, hall, hrawf]
  rw [valueAt_emit fl r1 dateToCommit1 _ (testKeys_nodup r1) dks1 i1 j1 d b hd1 hb1,
    valueAt_emit fl r2 dateToCommit2 _ (testKeys_nodup r2) dks2 i2 j2 d b hd2 hb2, hw,
    cellValue_congr fl r1 r2 _ _ d b _ (hraw d) hfr]

theorem C18_no_interference_witness :
    IsDateWalk sampleResults (dateKeys sampleResults)
      ∧ IsDateWalk (("BenchmarkBar", [(day1, ⟨"BenchmarkBar", day1, F64.fin 5⟩)]) ::
          sampleResults)
          (dateKeys (("BenchmarkBar", [(day1, ⟨"BenchmarkBar", day1, F64.fin 5⟩)]) ::
            sampleResults))
      ∧ (∀ d, GoMap.lookup (GoMap.getD sampleResults "BenchmarkFoo" []) d =
        GoMap.lookup
          (GoMap.getD (("BenchmarkBar", [(day1, ⟨"BenchmarkBar", day1, F64.fin 5⟩)]) ::
            sampleResults) "BenchmarkFoo" []) d)
      ∧ valueAt (report (sampleFlags false 3) sampleResults sampleDateToCommit) 1 0 =
          valueAt (report (sampleFlags false 3)
            (("BenchmarkBar", [(day1, ⟨"BenchmarkBar", day1, F64.fin 5⟩)]) :: sampleResults)
            sampleDateToCommit) 1 1 := by
  have hsame : ∀ d, GoMap.lookup (GoMap.getD sampleResults "BenchmarkFoo" []) d =
      GoMap.lookup
        (GoMap.getD (("BenchmarkBar", [(day1, ⟨"BenchmarkBar", day1, F64.fin 5⟩)]) ::
          sampleResults) "BenchmarkFoo" []) d := by
    intro d
    rfl
  exact ⟨isDateWalk_dateKeys _, isDateWalk_dateKeys _, hsame,
    C18_no_interference (sampleFlags false 3) sampleResults
      (("BenchmarkBar", [(day1, ⟨"BenchmarkBar", day1, F64.fin 5⟩)]) :: sampleResults)
      sampleDateToCommit sampleDateToCommit "BenchmarkFoo" _ _ (isDateWalk_dateKeys _)
      (isDateWalk_dateKeys _) hsame (by decide!) (by decide!)
      1 1 0 1 day2 (by decide!) (by decide!) (by decide!) (by decide!)⟩


end BenchstatGraph
